import Mathlib

/-!
Verification of the smartcut cutting engine.

Shallow embedding of the core cutting engine of `smartcut` (segment planner,
NAL classifiers, media index construction, per-stream timestamp repair, cut
driver) together with theorems settling the specification claims.

Conventions:
* Python `Fraction` is embedded as `ℚ`, Python `int` as `ℤ` (or `ℕ` for
  indices and byte values), `bytes` as `List ℕ`.
* Python `int(q)` on a rational truncates toward zero: `pytrunc`.
* Python `round(q)` on a rational rounds half to even: `pyround`.
* The planner's running index `p` into the interval list is represented by the
  remaining suffix of that list (the code only ever reads `positive[p]` and
  increments `p`).
-/

/-- Python `int(q)`: truncation toward zero. -/
def pytrunc (q : ℚ) : ℤ := if 0 ≤ q then ⌊q⌋ else ⌈q⌉

/-- Python `round(q)`: round half to even (banker's rounding). -/
def pyround (q : ℚ) : ℤ :=
  let f := ⌊q⌋
  let r := q - (f : ℚ)
  if r < 1/2 then f
  else if 1/2 < r then f + 1
  else if 2 ∣ f then f else f + 1

theorem pytrunc_mono {x y : ℚ} (h : x ≤ y) : pytrunc x ≤ pytrunc y := by
  unfold pytrunc
  by_cases hx : 0 ≤ x
  · rw [if_pos hx, if_pos (le_trans hx h)]
    exact Int.floor_le_floor h
  · rw [if_neg hx]
    by_cases hy : 0 ≤ y
    · rw [if_pos hy]
      calc ⌈x⌉ ≤ ⌈(0 : ℚ)⌉ := Int.ceil_le_ceil (le_of_not_le hx)
        _ = 0 := by simp
        _ ≤ ⌊y⌋ := Int.le_floor.mpr (by simpa using hy)
    · rw [if_neg hy]
      exact Int.ceil_le_ceil h

/-- Embedding of `misc_data.CutSegment`: `require_recode`, rational time bounds, GOP DTS
bounds and GOP index (defaulting to `-1` when absent, as in the dataclass). -/
structure CutSegment where
  require_recode : Bool
  start_time : ℚ
  end_time : ℚ
  gop_start_dts : ℤ := -1
  gop_end_dts : ℤ := -1
  gop_index : ℤ := -1
deriving DecidableEq, Repr

/-- The slices of `MediaContainer` that `make_cut_segments` and
`make_adjusted_segment_times` read: presence of a video stream, the GOP start
times in rational seconds, the parallel GOP DTS bound arrays, container start
time and duration, and the first audio track's packet times in seconds. -/
structure PlannerIndex where
  hasVideo : Bool
  gopStartTimesPtsS : List ℚ
  gopStartTimesDts : List ℤ
  gopEndTimesDts : List ℤ
  startTime : ℚ
  duration : ℚ
  firstAudioFrameTimes : List ℚ
deriving Repr

/-- Embedding of `smart_cut.make_adjusted_segment_times`: shift all interval endpoints by
the container start time; snap endpoints within `1e-6 s` of the file
boundaries to 10 s outside. -/
def make_adjusted_segment_times (positive : List (ℚ × ℚ)) (mc : PlannerIndex) :
    List (ℚ × ℚ) :=
  positive.map (fun se =>
    let s := if se.1 ≤ 1/1000000 then (-10 : ℚ) else se.1
    let e := if se.2 ≥ mc.duration - 1/1000000 then mc.duration + 10 else se.2
    (s + mc.startTime, e + mc.startTime))

/-- The video-less slicing loop of `make_cut_segments`
(`while s + 20 < e: append (s, s+19); s += 19` then append `(s, e)`). -/
def sliceAudioSegments (s e : ℚ) : List CutSegment :=
  if h : s + 20 < e then
    ⟨false, s, s + 19, -1, -1, -1⟩ :: sliceAudioSegments (s + 19) e
  else [⟨false, s, e, -1, -1, -1⟩]
termination_by (⌈e - s⌉).toNat
decreasing_by
  have h21 : (21 : ℤ) ≤ ⌈e - s⌉ := by
    have : (20 : ℚ) < e - s := by linarith
    have := Int.lt_ceil.mpr (by exact_mod_cast this : ((20 : ℤ) : ℚ) < e - s)
    omega
  have hrw : e - (s + 19) = (e - s) - ((19 : ℤ) : ℚ) := by push_cast; ring
  rw [hrw, Int.ceil_sub_int]
  omega

/-- The `while p < len(positive_segments) and positive_segments[p][1] <= i`
advance at the top of each GOP iteration, on the remaining interval suffix. -/
def advanceIntervals (i : ℚ) : List (ℚ × ℚ) → List (ℚ × ℚ)
  | [] => []
  | q :: rest => if q.2 ≤ i then advanceIntervals i rest else q :: rest

/-- The inner `while p < len(positive_segments) and positive_segments[p][1] < o`
loop of the partial-overlap branch: emit a recode segment per interval that
ends inside the GOP, advancing past each. -/
def innerEmit (o : ℚ) (dI dO gi : ℤ) : List (ℚ × ℚ) → List CutSegment × List (ℚ × ℚ)
  | [] => ([], [])
  | q :: rest =>
    if q.2 < o then
      let r := innerEmit o dI dO gi rest
      (⟨true, q.1, q.2, dI, dO, gi⟩ :: r.1, r.2)
    else ([], q :: rest)

/-- One iteration of the GOP loop of `make_cut_segments` for the GOP
`[i, o)` with DTS bounds `dI, dO` and index `gi`: the no-overlap,
complete-overlap (or keyframe-mode) and partial-overlap cases. Returns the
emitted segments and the remaining interval suffix. -/
def gopStep (km : Bool) (gi : ℤ) (i o : ℚ) (dI dO : ℤ)
    (ps0 : List (ℚ × ℚ)) : List CutSegment × List (ℚ × ℚ) :=
  match advanceIntervals i ps0 with
  | [] => ([], [])
  | q :: rest =>
    if o ≤ q.1 then ([], q :: rest)
    else if km ∨ (q.1 ≤ i ∧ o ≤ q.2) then ([⟨false, i, o, dI, dO, gi⟩], q :: rest)
    else
      let hd := if q.1 < i then ([⟨true, i, q.2, dI, dO, gi⟩], rest)
                else (([] : List CutSegment), q :: rest)
      let mid := innerEmit o dI dO gi hd.2
      match mid.2 with
      | [] => (hd.1 ++ mid.1, [])
      | r :: _ =>
        if r.1 < o then (hd.1 ++ mid.1 ++ [⟨true, r.1, o, dI, dO, gi⟩], mid.2)
        else (hd.1 ++ mid.1, mid.2)

/-- The rows of the GOP loop: `enumerate(zip(cutpoints[:-1], cutpoints[1:],
gop_start_times_dts, gop_end_times_dts))`. -/
def gopRowsAux (n : ℤ) : List ℚ → List ℚ → List ℤ → List ℤ →
    List (ℤ × ℚ × ℚ × ℤ × ℤ)
  | a :: as, b :: bs, c :: cs, d :: ds =>
    (n, a, b, c, d) :: gopRowsAux (n + 1) as bs cs ds
  | _, _, _, _ => []

/-- Fold of `gopStep` over the GOP rows, threading the interval suffix. -/
def processGops (km : Bool) :
    List (ℤ × ℚ × ℚ × ℤ × ℤ) → List (ℚ × ℚ) → List CutSegment
  | [], _ => []
  | (gi, i, o, dI, dO) :: rest, ps =>
    let r := gopStep km gi i o dI dO ps
    r.1 ++ processGops km rest r.2

/-- Embedding of `smart_cut.make_cut_segments`. Video-less path: clamp each interval to the
first audio track's time span and slice to ≤ 19 s pieces plus a remainder;
video path: walk the GOP table and the interval list together.
(The Python code indexes `frame_times[0]` / `frame_times[-1]`, raising on an
empty track; the `headD`/`getLastD` defaults are never exercised by the
theorems below, which assume a nonempty track.) -/
def make_cut_segments (mc : PlannerIndex) (positive : List (ℚ × ℚ))
    (keyframeMode : Bool := false) : List CutSegment :=
  if mc.hasVideo = false then
    let minTime := mc.firstAudioFrameTimes.headD 0
    let maxTime := mc.firstAudioFrameTimes.getLastD 0 + 1/10000
    positive.flatMap (fun p => sliceAudioSegments (max p.1 minTime) (min p.2 maxTime))
  else
    let cutpoints := mc.gopStartTimesPtsS ++ [mc.startTime + mc.duration + 1/10000]
    processGops keyframeMode
      (gopRowsAux 0 cutpoints.dropLast cutpoints.tail
        mc.gopStartTimesDts mc.gopEndTimesDts)
      positive

/-- Embedding of `media_utils.VideoExportMode`. -/
inductive VideoExportMode
  | smartcut
  | keyframes
  | recode
deriving DecidableEq, Repr

/-- The planning portion of `smart_cut.smart_cut` (lines 108-113): adjust the
interval times, plan the cut segments (keyframe mode iff the export mode is
KEYFRAMES), and in RECODE mode set `require_recode` on every planned segment. -/
def smart_cut_plan (mc : PlannerIndex) (positive : List (ℚ × ℚ))
    (mode : VideoExportMode) : List CutSegment :=
  let adjusted := make_adjusted_segment_times positive mc
  let cs := make_cut_segments mc adjusted (mode = VideoExportMode.keyframes)
  if mode = VideoExportMode.recode then
    cs.map (fun c => { c with require_recode := true })
  else cs

/-! ## NAL classifiers (`nal_tools.py`)

Packet payloads are byte lists; `be32 data i` is
`int.from_bytes(packet_data[i:i+4], byteorder='big')` and `findSub` is
`bytes.find(pat, pos)` returning `none` for `-1`. -/

/-- Big-endian 32-bit read at offset `i` (short reads near the end of the
payload use the available bytes, as Python slicing does). -/
def be32 (data : List ℕ) (i : ℕ) : ℕ :=
  ((data.drop i).take 4).foldl (fun a b => a * 256 + b) 0

def startCode4 : List ℕ := [0, 0, 0, 1]

def startCode3 : List ℕ := [0, 0, 1]

/-- Python `data.find(pat, pos)`: smallest `j ≥ pos` with `pat` occurring at
`j`, `none` when there is no occurrence. -/
def findSub (data pat : List ℕ) (pos : ℕ) : Option ℕ :=
  (List.range (data.length + 1)).find? fun j =>
    decide (pos ≤ j) && decide (j + pat.length ≤ data.length) &&
      ((data.drop j).take pat.length == pat)

theorem findSub_ge {data pat : List ℕ} {pos j : ℕ} (h : findSub data pat pos = some j) :
    pos ≤ j := by
  have := List.find?_some h
  simp only [Bool.and_eq_true, decide_eq_true_eq] at this
  exact this.1.1

/-- H.265 NAL header type of the byte at `i`: `(data[i] >> 1) & 0x3F`. -/
def nalType265At (data : List ℕ) (i : ℕ) : ℕ := (data.getD i 0) >>> 1 &&& 63

/-- H.264 NAL header type of the byte at `i`: `data[i] & 0x1F`. -/
def nalType264At (data : List ℕ) (i : ℕ) : ℕ := (data.getD i 0) &&& 31

/-- The length-prefixed scanning loop of `get_h265_nal_unit_type`, with the
early return on the first BLA/IDR type (16..20) as `.inl` and the collected
type list at loop exit as `.inr`. -/
def lpScan265 (data : List ℕ) (i : ℕ) (acc : List ℕ) : ℕ ⊕ List ℕ :=
  if hI : i < data.length - 4 then
    let nalLen := be32 data i
    if hB : nalLen < 2 ∨ nalLen > data.length - i - 4 then Sum.inr acc
    else if i + 5 < data.length then
      let t := nalType265At data (i + 4)
      if 16 ≤ t ∧ t ≤ 20 then Sum.inl t
      else lpScan265 data (i + 4 + nalLen) (acc ++ [t])
    else lpScan265 data (i + 4 + nalLen) acc
  else Sum.inr acc
termination_by data.length - i
decreasing_by all_goals omega

/-- The full sequence of NAL types the length-prefixed H.265 parse
enumerates (same walk as `lpScan265`, without the early return). -/
def lpTypes265 (data : List ℕ) (i : ℕ) : List ℕ :=
  if hI : i < data.length - 4 then
    let nalLen := be32 data i
    if hB : nalLen < 2 ∨ nalLen > data.length - i - 4 then []
    else if i + 5 < data.length then
      nalType265At data (i + 4) :: lpTypes265 data (i + 4 + nalLen)
    else lpTypes265 data (i + 4 + nalLen)
  else []
termination_by data.length - i
decreasing_by all_goals omega

/-- The Annex-B scanning loop of `get_h265_nal_unit_type` (start-code search
with 4-byte codes preferred at equal positions), early return on BLA/IDR. -/
def abScan265 (data : List ℕ) (pos : ℕ) (acc : List ℕ) : ℕ ⊕ List ℕ :=
  if _hP : pos < data.length - 5 then
    match h4 : findSub data startCode4 pos, h3 : findSub data startCode3 pos with
    | none, none => Sum.inr acc
    | some j4, none =>
      if j4 + 6 ≤ data.length then
        let t := nalType265At data (j4 + 4)
        if 16 ≤ t ∧ t ≤ 20 then Sum.inl t
        else abScan265 data (j4 + 4) (acc ++ [t])
      else abScan265 data (j4 + 4) acc
    | none, some j3 =>
      if j3 + 5 ≤ data.length then
        let t := nalType265At data (j3 + 3)
        if 16 ≤ t ∧ t ≤ 20 then Sum.inl t
        else abScan265 data (j3 + 3) (acc ++ [t])
      else abScan265 data (j3 + 3) acc
    | some j4, some j3 =>
      if j4 ≤ j3 then
        if j4 + 6 ≤ data.length then
          let t := nalType265At data (j4 + 4)
          if 16 ≤ t ∧ t ≤ 20 then Sum.inl t
          else abScan265 data (j4 + 4) (acc ++ [t])
        else abScan265 data (j4 + 4) acc
      else
        if j3 + 5 ≤ data.length then
          let t := nalType265At data (j3 + 3)
          if 16 ≤ t ∧ t ≤ 20 then Sum.inl t
          else abScan265 data (j3 + 3) (acc ++ [t])
        else abScan265 data (j3 + 3) acc
  else Sum.inr acc
termination_by data.length - pos
decreasing_by
  all_goals
    first
      | (have hge := findSub_ge h4; omega)
      | (have hge := findSub_ge h3; omega)

/-- The full sequence of NAL types the Annex-B H.265 parse enumerates. -/
def abTypes265 (data : List ℕ) (pos : ℕ) : List ℕ :=
  if _hP : pos < data.length - 5 then
    match h4 : findSub data startCode4 pos, h3 : findSub data startCode3 pos with
    | none, none => []
    | some j4, none =>
      if j4 + 6 ≤ data.length then
        nalType265At data (j4 + 4) :: abTypes265 data (j4 + 4)
      else abTypes265 data (j4 + 4)
    | none, some j3 =>
      if j3 + 5 ≤ data.length then
        nalType265At data (j3 + 3) :: abTypes265 data (j3 + 3)
      else abTypes265 data (j3 + 3)
    | some j4, some j3 =>
      if j4 ≤ j3 then
        if j4 + 6 ≤ data.length then
          nalType265At data (j4 + 4) :: abTypes265 data (j4 + 4)
        else abTypes265 data (j4 + 4)
      else
        if j3 + 5 ≤ data.length then
          nalType265At data (j3 + 3) :: abTypes265 data (j3 + 3)
        else abTypes265 data (j3 + 3)
  else []
termination_by data.length - pos
decreasing_by
  all_goals
    first
      | (have hge := findSub_ge h4; omega)
      | (have hge := findSub_ge h3; omega)

/-- The post-loop selection of `get_h265_nal_unit_type`: first CRA (21), else
first picture type (≤ 15), else the first collected type. -/
def pickTypes265 (found : List ℕ) : Option ℕ :=
  match found.find? (fun t => t == 21) with
  | some t => some t
  | none =>
    match found.find? (fun t => decide (t ≤ 15)) with
    | some t => some t
    | none => found.head?

/-- Whether the length-prefixed interpretation is taken:
`4 < nal_length ≤ len(payload) - 4` for the leading 32-bit length. -/
def lpCondition (data : List ℕ) : Prop :=
  4 < be32 data 0 ∧ be32 data 0 ≤ data.length - 4

instance (data : List ℕ) : Decidable (lpCondition data) := by
  unfold lpCondition; infer_instance

/-- Embedding of `nal_tools.get_h265_nal_unit_type`. -/
def get_h265_nal_unit_type (data : List ℕ) : Option ℕ :=
  if data.length < 6 then none
  else
    let lpResult : Option (Option ℕ) :=
      if lpCondition data then
        match lpScan265 data 0 [] with
        | Sum.inl t => some (some t)
        | Sum.inr found => if found.isEmpty then none else some (pickTypes265 found)
      else none
    match lpResult with
    | some r => r
    | none =>
      match abScan265 data 0 [] with
      | Sum.inl t => some t
      | Sum.inr found => pickTypes265 found

/-- The sequence of NAL types `get_h265_nal_unit_type` parses out of the
payload: the length-prefixed records when the leading length is valid,
otherwise the Annex-B start-code walk. -/
def h265ParsedTypes (data : List ℕ) : List ℕ :=
  if data.length < 6 then []
  else if lpCondition data then lpTypes265 data 0
  else abTypes265 data 0

/-- Follows the spec's words (refinement target, not the code): the first
type in 16..20 wins; else 21 if any CRA; else the first type in 0..15; else
the first type encountered. -/
def selectH265Spec (ts : List ℕ) : Option ℕ :=
  match ts.find? (fun t => decide (16 ≤ t) && decide (t ≤ 20)) with
  | some t => some t
  | none =>
    if ts.contains 21 then some 21
    else
      match ts.find? (fun t => decide (t ≤ 15)) with
      | some t => some t
      | none => ts.head?

/-- The length-prefixed scanning loop of `get_h264_nal_unit_type`, early
return on IDR (5). -/
def lpScan264 (data : List ℕ) (i : ℕ) (acc : List ℕ) : ℕ ⊕ List ℕ :=
  if hI : i < data.length - 4 then
    let nalLen := be32 data i
    if hB : nalLen < 1 ∨ nalLen > data.length - i - 4 then Sum.inr acc
    else if i + 4 < data.length then
      let t := nalType264At data (i + 4)
      if t = 5 then Sum.inl 5
      else lpScan264 data (i + 4 + nalLen) (acc ++ [t])
    else lpScan264 data (i + 4 + nalLen) acc
  else Sum.inr acc
termination_by data.length - i
decreasing_by all_goals omega

/-- The Annex-B scanning loop of `get_h264_nal_unit_type`, early return on
IDR (5). -/
def abScan264 (data : List ℕ) (pos : ℕ) (acc : List ℕ) : ℕ ⊕ List ℕ :=
  if _hP : pos < data.length - 4 then
    match h4 : findSub data startCode4 pos, h3 : findSub data startCode3 pos with
    | none, none => Sum.inr acc
    | some j4, none =>
      if j4 + 5 ≤ data.length then
        let t := nalType264At data (j4 + 4)
        if t = 5 then Sum.inl 5
        else abScan264 data (j4 + 4) (acc ++ [t])
      else abScan264 data (j4 + 4) acc
    | none, some j3 =>
      if j3 + 4 ≤ data.length then
        let t := nalType264At data (j3 + 3)
        if t = 5 then Sum.inl 5
        else abScan264 data (j3 + 3) (acc ++ [t])
      else abScan264 data (j3 + 3) acc
    | some j4, some j3 =>
      if j4 ≤ j3 then
        if j4 + 5 ≤ data.length then
          let t := nalType264At data (j4 + 4)
          if t = 5 then Sum.inl 5
          else abScan264 data (j4 + 4) (acc ++ [t])
        else abScan264 data (j4 + 4) acc
      else
        if j3 + 4 ≤ data.length then
          let t := nalType264At data (j3 + 3)
          if t = 5 then Sum.inl 5
          else abScan264 data (j3 + 3) (acc ++ [t])
        else abScan264 data (j3 + 3) acc
  else Sum.inr acc
termination_by data.length - pos
decreasing_by
  all_goals
    first
      | (have hge := findSub_ge h4; omega)
      | (have hge := findSub_ge h3; omega)

/-- The post-loop selection of `get_h264_nal_unit_type`: first non-IDR
picture type (1..4), else the first collected type. -/
def pickTypes264 (found : List ℕ) : Option ℕ :=
  match found.find? (fun t => decide (1 ≤ t) && decide (t ≤ 4)) with
  | some t => some t
  | none => found.head?

/-- Embedding of `nal_tools.get_h264_nal_unit_type`. -/
def get_h264_nal_unit_type (data : List ℕ) : Option ℕ :=
  if data.length < 5 then none
  else
    let lpResult : Option (Option ℕ) :=
      if lpCondition data then
        match lpScan264 data 0 [] with
        | Sum.inl t => some (some t)
        | Sum.inr found => if found.isEmpty then none else some (pickTypes264 found)
      else none
    match lpResult with
    | some r => r
    | none =>
      match abScan264 data 0 [] with
      | Sum.inl t => some t
      | Sum.inr found => pickTypes264 found

/-- Embedding of `nal_tools.is_safe_h264_keyframe_nal`. -/
def is_safe_h264_keyframe_nal : Option ℕ → Bool
  | none => true
  | some t => t == 5 || t == 6 || t == 7 || t == 8

/-- Embedding of `nal_tools.is_safe_h265_keyframe_nal`. -/
def is_safe_h265_keyframe_nal : Option ℕ → Bool
  | none => true
  | some t =>
    t == 16 || t == 17 || t == 18 || t == 19 || t == 20 || t == 21 ||
      t == 32 || t == 33 || t == 34

/-- Embedding of `nal_tools.is_rasl_nal_type`: RASL_N (8) or RASL_R (9). -/
def is_rasl_nal_type : Option ℕ → Bool
  | none => false
  | some t => t == 8 || t == 9

/-- Embedding of `nal_tools.is_radl_nal_type`: RADL_N (6) or RADL_R (7). -/
def is_radl_nal_type : Option ℕ → Bool
  | none => false
  | some t => t == 6 || t == 7

/-- Embedding of `nal_tools.is_leading_picture_nal_type`: RASL or RADL. -/
def is_leading_picture_nal_type (t : Option ℕ) : Bool :=
  is_rasl_nal_type t || is_radl_nal_type t

/-! Section: Per-stream timestamp repair -/

/-- A video packet as seen by `VideoCutter._fix_packet_timestamps`:
optional PTS and DTS in the output time base. -/
structure VPacket where
  pts : Option ℤ
  dts : Option ℤ
deriving DecidableEq, Repr

/-- Embedding of `VideoCutter._fix_packet_timestamps` on one packet given the cutter's
`last_dts`: zap garbage DTS to absent; bump a non-increasing DTS to
`last_dts + 1` and clamp PTS up to DTS; for absent DTS use PTS (first time,
while `last_dts < 0`) or `last_dts + 1`. Returns the repaired packet and the
new `last_dts`. -/
def fixPacketTimestamps (lastDts : ℤ) (p : VPacket) : VPacket × ℤ :=
  let dts0 : Option ℤ :=
    match p.dts with
    | some d => if d < -900000 ∨ d > 1000000000000 then none else some d
    | none => none
  match dts0 with
  | some d =>
    let d1 := if d ≤ lastDts then lastDts + 1 else d
    let pts1 : Option ℤ :=
      match p.pts with
      | some q => if q < d1 then some d1 else some q
      | none => none
    (⟨pts1, some d1⟩, d1)
  | none =>
    let ptsValue := p.pts.getD 0
    let d1 := if lastDts < 0 then ptsValue else lastDts + 1
    (⟨p.pts, some d1⟩, d1)

/-- The repair applied in emission order to a packet list, threading
`last_dts` (initialized to `-100_000_000` in `VideoCutter.__init__`). -/
def fixVideoPackets (lastDts : ℤ) : List VPacket → List VPacket
  | [] => []
  | p :: rest =>
    let r := fixPacketTimestamps lastDts p
    r.1 :: fixVideoPackets r.2 rest

/-- An audio packet (optional PTS/DTS in stream time base). -/
structure AudPacket where
  pts : Option ℤ
  dts : Option ℤ
deriving DecidableEq, Repr

/-- State of `PassthruAudioCutter`: output position and previous emitted
DTS/PTS (initialized to `0, -100_000, -100_000`). -/
structure AudioCutterState where
  segmentStartInOutput : ℚ
  prevDts : ℤ
  prevPts : ℤ
deriving Repr

/-- Python `np.searchsorted(a, v)` (left side) on a sorted array: the number of
leading elements strictly below `v`. -/
def searchsortedLeft (a : List ℤ) (v : ℤ) : ℕ := (a.takeWhile (· < v)).length

/-- The per-packet loop of `PassthruAudioCutter.segment`: skip packets with
absent PTS or DTS, shift both by the same rational offset (truncated), bump
non-increasing values past the previous emission. Returns the emitted
packets and the final `(prev_pts, prev_dts)`. -/
def audioEmitPackets (offset : ℚ) : ℤ → ℤ → List AudPacket → List AudPacket × ℤ × ℤ
  | prevPts, prevDts, [] => ([], prevPts, prevDts)
  | prevPts, prevDts, p :: rest =>
    match p.pts, p.dts with
    | some pts, some dts =>
      let newPts0 := pytrunc ((pts : ℚ) + offset)
      let newDts0 := pytrunc ((dts : ℚ) + offset)
      let newPts := if newPts0 ≤ prevPts then prevPts + 1 else newPts0
      let newDts := if newDts0 ≤ prevDts then prevDts + 1 else newDts0
      let r := audioEmitPackets offset newPts newDts rest
      (⟨some newPts, some newDts⟩ :: r.1, r.2)
    | _, _ => audioEmitPackets offset prevPts prevDts rest

/-- Embedding of `PassthruAudioCutter.segment`. `framePts` stands for the track's
`frame_times_pts` array. Modelled from the spec for that field only: the
spec's AudioTrack carries "a parallel array of packet PTSs (integer, in
stream time-base)", which `track_cutters.py` reads as `frame_times_pts`
though no code under `src/` constructs it. -/
def passthruAudioSegment (inTb : ℚ) (packets : List AudPacket) (framePts : List ℤ)
    (st : AudioCutterState) (cs : CutSegment) : List AudPacket × AudioCutterState :=
  let start : ℕ :=
    if cs.start_time ≤ 0 then 0
    else searchsortedLeft framePts (pyround (cs.start_time / inTb))
  let stop : ℕ := searchsortedLeft framePts (pyround (cs.end_time / inTb))
  let inPackets := (packets.drop start).take (stop - start)
  let offset := (st.segmentStartInOutput - cs.start_time) / inTb
  let r := audioEmitPackets offset st.prevPts st.prevDts inPackets
  (r.1, ⟨st.segmentStartInOutput + (cs.end_time - cs.start_time), r.2.2, r.2.1⟩)

/-- All packets emitted by `PassthruAudioCutter` over a run of segments. -/
def runAudioSegments (inTb : ℚ) (packets : List AudPacket) (framePts : List ℤ) :
    AudioCutterState → List CutSegment → List AudPacket
  | _, [] => []
  | st, cs :: rest =>
    let r := passthruAudioSegment inTb packets framePts st cs
    r.1 ++ runAudioSegments inTb packets framePts r.2 rest

/-- State of `SubtitleCutter`: output position, previous emitted PTS
(initialized to `0, -100_000`) and the remaining packet suffix (the forward
cursor `current_packet_i`). Subtitle packets are their PTS values (the demux
loop stores only packets with non-null PTS). -/
structure SubCutterState where
  segmentStartInOutput : ℚ
  prevPts : ℤ
  remaining : List ℤ
deriving Repr

/-- The cursor walk of `SubtitleCutter.segment`: skip packets before the
segment start, collect those with start ≤ pts < end, stop at the first
later packet. Returns the collected packets and the remaining suffix. -/
def subtitleCollect (startPts endPts : ℤ) : List ℤ → List ℤ × List ℤ
  | [] => ([], [])
  | p :: rest =>
    if p < startPts then subtitleCollect startPts endPts rest
    else if startPts ≤ p ∧ p < endPts then
      let r := subtitleCollect startPts endPts rest
      (p :: r.1, r.2)
    else ([], p :: rest)

/-- The emission loop of `SubtitleCutter.segment`: shift each collected PTS,
bump strictly-lower PTS past the previous emission, set DTS = PTS. Returns
the emitted `(pts, dts)` pairs and the final `prev_pts`. -/
def subtitleEmit (shift : ℚ) (startPts : ℤ) : ℤ → List ℤ → List (ℤ × ℤ) × ℤ
  | prevPts, [] => ([], prevPts)
  | prevPts, p :: rest =>
    let pts0 := pytrunc ((p : ℚ) - (startPts : ℚ) + shift)
    let pts := if pts0 < prevPts then prevPts + 1 else pts0
    let r := subtitleEmit shift startPts pts rest
    ((pts, pts) :: r.1, r.2)

/-- Embedding of `SubtitleCutter.segment`. -/
def subtitleSegment (inTb : ℚ) (st : SubCutterState) (cs : CutSegment) :
    List (ℤ × ℤ) × SubCutterState :=
  let startPts := pytrunc (cs.start_time / inTb)
  let endPts := pytrunc (cs.end_time / inTb)
  let c := subtitleCollect startPts endPts st.remaining
  let r := subtitleEmit (st.segmentStartInOutput / inTb) startPts st.prevPts c.1
  (r.1, ⟨st.segmentStartInOutput + (cs.end_time - cs.start_time), r.2, c.2⟩)

/-- All `(pts, dts)` pairs emitted by `SubtitleCutter` over a run of
segments. -/
def runSubtitleSegments (inTb : ℚ) : SubCutterState → List CutSegment → List (ℤ × ℤ)
  | _, [] => []
  | st, cs :: rest =>
    let r := subtitleSegment inTb st cs
    r.1 ++ runSubtitleSegments inTb r.2 rest

/-! Section: Media index construction: the audio side of `MediaContainer.__init__` -/

/-- The `packets` field of an `AudioTrack` as the dataclass call at
`media_container.py:97` assigns it. The call
`AudioTrack(self, a_s, loading_s, path, i, i)` passes six positional
arguments to a dataclass whose fields are
`(media_container, av_stream, path, index, index_in_source, packets,
frame_times)`, so the sixth argument — the integer `i` — lands in `packets`.
The dynamically-typed field is embedded as a sum: an integer (what the call
produces) or a packet list (what the append loop requires). -/
structure AudioTrackState where
  packetsField : ℤ ⊕ List ℤ
  frameTimes : List ℤ
deriving DecidableEq, Repr

/-- The `AudioTrack(...)` construction at `media_container.py:97` for audio
track number `i`: `packets` receives the integer `i`, `frame_times` its
default empty list. -/
def mkAudioTrackAtCallSite (i : ℤ) : AudioTrackState := ⟨Sum.inl i, []⟩

/-- One audio-branch iteration of the demux loop
(`track.packets.append(packet); track.frame_times.append(packet.pts)`):
`none` models the `AttributeError` raised when `packets` holds an integer. -/
def appendAudioPacket (t : AudioTrackState) (pktId pts : ℤ) : Option AudioTrackState :=
  match t.packetsField with
  | Sum.inl _ => none
  | Sum.inr l => some ⟨Sum.inr (l ++ [pktId]), t.frameTimes ++ [pts]⟩

/-- The audio side of the demux loop of `MediaContainer.__init__` for one
track: packets with absent PTS are skipped at the top of the loop; each
remaining packet is appended to the track. `none` models an uncaught
exception. -/
def demuxAudioLoop (t : AudioTrackState) : List (ℤ × Option ℤ) → Option AudioTrackState
  | [] => some t
  | (pid, pts) :: rest =>
    match pts with
    | none => demuxAudioLoop t rest
    | some v =>
      match appendAudioPacket t pid v with
      | none => none
      | some t1 => demuxAudioLoop t1 rest

/-! Section: RASL / leading-pictures pass (H.265) -/

/-- An H.265 video packet of one GOP, in decode order: raw payload and DTS. -/
structure H265Pkt where
  payload : List ℕ
  dts : ℤ

/-- Modelled from the spec: the RASL/leading-pictures pass of the index
construction is absent from `src/` (`video_cutter.py` reads
`media_container.gop_has_rasl` and `gop_leading_end_dts`, which
`MediaContainer.__init__` never builds). Per spec §4.2: "For every GOP, scan
its packets in decode order and classify each by NAL type. Set
`gop_has_rasl = true` if any RASL NAL is seen. Compute `gop_leading_end_dts`
= the largest DTS of any leading (RASL or RADL) picture within the GOP;
absent if none." One scan step, using the source's classifiers. -/
def raslLeadingStep (st : Bool × Option ℤ) (pkt : H265Pkt) : Bool × Option ℤ :=
  let t := get_h265_nal_unit_type pkt.payload
  (st.1 || is_rasl_nal_type t,
   if is_leading_picture_nal_type t then
     some (match st.2 with
           | none => pkt.dts
           | some d => max d pkt.dts)
   else st.2)

/-- Modelled from the spec: the per-GOP scan of the RASL/leading-pictures
pass, producing `(gop_has_rasl, gop_leading_end_dts)` for one GOP. -/
def gopRaslScan (gop : List H265Pkt) : Bool × Option ℤ :=
  gop.foldl raslLeadingStep (false, none)

/-- Modelled from the spec: the RASL/leading-pictures pass over all GOPs,
producing the `gop_has_rasl` and `gop_leading_end_dts` arrays read by
`VideoCutter._should_hybrid_recode_cra` and
`VideoCutter.hybrid_recode_cra_segment`. -/
def raslPass (gops : List (List H265Pkt)) : List (Bool × Option ℤ) :=
  gops.map gopRaslScan

/-! Section: The cut driver (`smart_cut.smart_cut`, single-output-file path) -/

/-- Observable actions of the driver: muxing a packet into the output
container, and deleting the output file. -/
inductive DriveEvent
  | mux (pkt : ℤ)
  | deleteFile
deriving DecidableEq, Repr

/-- The value a driver return could signal (the spec's *Cancelled*
condition); `smart_cut` has no return statement, so the embedded driver
always produces `none`. -/
inductive DriveSignal
  | cancelled
deriving DecidableEq, Repr

/-- A per-stream generator as the driver sees it: packets per segment and
flush packets from `finish()`. Packets are abstract identifiers. -/
structure StreamGen where
  segPackets : CutSegment → List ℤ
  finishPackets : List ℤ

/-- The packets muxed for one segment across all generators, in order. -/
def muxSegmentEvents (gens : List StreamGen) (s : CutSegment) : List DriveEvent :=
  gens.flatMap (fun g => (g.segPackets s).map DriveEvent.mux)

/-- The flush packets muxed by the `finish()` loop across all generators. -/
def muxFinishEvents (gens : List StreamGen) : List DriveEvent :=
  gens.flatMap (fun g => g.finishPackets.map DriveEvent.mux)

/-- The per-segment loop of `smart_cut` (lines 177-193): before each segment
the cancel flag is polled (one poll per loop entry, numbered by `k`); a set
flag or a segment starting at/after the output file's end interval breaks
the loop. Returns the muxed events and the next poll number. The
`assert s.start_time < s.end_time` is not modelled (theorems below restrict
to segment lists satisfying it). -/
def segmentLoop (gens : List StreamGen) (fileEnd : ℚ) (cancel : ℕ → Bool) :
    List CutSegment → ℕ → List DriveEvent × ℕ
  | [], k => ([], k)
  | s :: rest, k =>
    if cancel k then ([], k + 1)
    else if fileEnd ≤ s.start_time then ([], k + 1)
    else
      let r := segmentLoop gens fileEnd cancel rest (k + 1)
      (muxSegmentEvents gens s ++ r.1, r.2)

/-- The driving portion of `smart_cut` for a single output file: poll cancel
before opening (a set flag skips the file entirely), run the segment loop,
mux every generator's `finish()` packets, and after closing the file delete
it if the cancel flag is set. The function body has no return statement, so
the signal component is always `none`. -/
def smart_cut_driver (segs : List CutSegment) (gens : List StreamGen)
    (fileEnd : ℚ) (cancel : ℕ → Bool) : List DriveEvent × Option DriveSignal :=
  if cancel 0 then ([], none)
  else
    let r := segmentLoop gens fileEnd cancel segs 1
    let evts := r.1 ++ muxFinishEvents gens
    (if cancel r.2 then evts ++ [DriveEvent.deleteFile] else evts, none)

/-! Section: Theorems: segment planner -/

theorem advanceIntervals_subset {i : ℚ} :
    ∀ {ps : List (ℚ × ℚ)} {q : ℚ × ℚ}, q ∈ advanceIntervals i ps → q ∈ ps := by
  intro ps
  induction ps with
  | nil => intro q h; simp [advanceIntervals] at h
  | cons a rest ih =>
    intro q h
    unfold advanceIntervals at h
    split at h
    · exact List.mem_cons_of_mem a (ih h)
    · exact h

theorem advanceIntervals_head_lt {i : ℚ} :
    ∀ {ps : List (ℚ × ℚ)} {q : ℚ × ℚ} {rest : List (ℚ × ℚ)},
      advanceIntervals i ps = q :: rest → i < q.2 := by
  intro ps
  induction ps with
  | nil => intro q rest h; simp [advanceIntervals] at h
  | cons a tl ih =>
    intro q rest h
    unfold advanceIntervals at h
    split at h
    · exact ih h
    · injection h with h1 _
      subst h1
      exact not_le.mp (by assumption)

theorem advanceIntervals_cons_of_lt {i : ℚ} {q : ℚ × ℚ} {rest : List (ℚ × ℚ)}
    (h : i < q.2) : advanceIntervals i (q :: rest) = q :: rest := by
  unfold advanceIntervals
  rw [if_neg (not_le.mpr h)]

theorem innerEmit_segs {o : ℚ} {dI dO gi : ℤ} :
    ∀ {ps : List (ℚ × ℚ)}, (∀ q ∈ ps, q.1 < q.2) →
      ∀ seg ∈ (innerEmit o dI dO gi ps).1, seg.start_time < seg.end_time := by
  intro ps
  induction ps with
  | nil => intro _ seg h; simp [innerEmit] at h
  | cons a rest ih =>
    intro hiv seg h
    unfold innerEmit at h
    split at h
    · rcases List.mem_cons.mp h with h1 | h1
      · subst h1; exact hiv a (List.mem_cons_self a rest)
      · exact ih (fun q hq => hiv q (List.mem_cons_of_mem a hq)) seg h1
    · simp at h

theorem innerEmit_rest_subset {o : ℚ} {dI dO gi : ℤ} :
    ∀ {ps : List (ℚ × ℚ)} {q : ℚ × ℚ}, q ∈ (innerEmit o dI dO gi ps).2 → q ∈ ps := by
  intro ps
  induction ps with
  | nil => intro q h; simp [innerEmit] at h
  | cons a rest ih =>
    intro q h
    unfold innerEmit at h
    split at h
    · exact List.mem_cons_of_mem a (ih h)
    · exact h

theorem gopStep_props (km : Bool) (gi : ℤ) (i o : ℚ) (dI dO : ℤ)
    (ps : List (ℚ × ℚ)) (hio : i < o) (hiv : ∀ q ∈ ps, q.1 < q.2) :
    (∀ seg ∈ (gopStep km gi i o dI dO ps).1, seg.start_time < seg.end_time) ∧
    (∀ q ∈ (gopStep km gi i o dI dO ps).2, q ∈ ps) := by
  unfold gopStep
  split
  · simp
  · rename_i q rest hA
    have hsub : ∀ x ∈ q :: rest, x ∈ ps := fun x hx => advanceIntervals_subset (hA ▸ hx)
    have hq2 : i < q.2 := advanceIntervals_head_lt hA
    by_cases h1 : o ≤ q.1
    · rw [if_pos h1]
      exact ⟨by simp, hsub⟩
    · rw [if_neg h1]
      by_cases h2 : (km = true) ∨ (q.1 ≤ i ∧ o ≤ q.2)
      · rw [if_pos h2]
        refine ⟨?_, hsub⟩
        intro seg hseg
        rcases List.mem_singleton.mp hseg with rfl
        exact hio
      · rw [if_neg h2]
        by_cases h3 : q.1 < i
        · simp only [if_pos h3]
          have hdsub : ∀ x ∈ rest, x ∈ ps := fun x hx => hsub x (List.mem_cons_of_mem q hx)
          have hdiv : ∀ x ∈ rest, x.1 < x.2 := fun x hx => hiv x (hdsub x hx)
          have hmidsub : ∀ x ∈ (innerEmit o dI dO gi rest).2, x ∈ ps :=
            fun x hx => hdsub x (innerEmit_rest_subset hx)
          split
          · rename_i hM
            refine ⟨?_, by simp⟩
            intro seg hseg
            simp only [List.mem_append, List.mem_cons, List.mem_singleton] at hseg
            rcases hseg with (rfl | h) | h
            · exact hq2
            · simp at h
            · exact innerEmit_segs hdiv seg h
          · rename_i r rrest hM
            by_cases h4 : r.1 < o
            · rw [if_pos h4]
              constructor
              · intro seg hseg
                simp only [List.mem_append, List.mem_cons, List.mem_singleton] at hseg
                rcases hseg with ((rfl | h) | h) | (rfl | h)
                · exact hq2
                · simp at h
                · exact innerEmit_segs hdiv seg h
                · exact h4
                · simp at h
              · intro x hx
                exact hmidsub x hx
            · rw [if_neg h4]
              constructor
              · intro seg hseg
                simp only [List.mem_append, List.mem_cons, List.mem_singleton] at hseg
                rcases hseg with (rfl | h) | h
                · exact hq2
                · simp at h
                · exact innerEmit_segs hdiv seg h
              · intro x hx
                exact hmidsub x hx
        · simp only [if_neg h3]
          have hdiv : ∀ x ∈ q :: rest, x.1 < x.2 := fun x hx => hiv x (hsub x hx)
          have hmidsub : ∀ x ∈ (innerEmit o dI dO gi (q :: rest)).2, x ∈ ps :=
            fun x hx => hsub x (innerEmit_rest_subset hx)
          split
          · rename_i hM
            refine ⟨?_, by simp⟩
            intro seg hseg
            simp only [List.nil_append] at hseg
            exact innerEmit_segs hdiv seg hseg
          · rename_i r rrest hM
            by_cases h4 : r.1 < o
            · rw [if_pos h4]
              constructor
              · intro seg hseg
                simp only [List.nil_append, List.mem_append, List.mem_singleton] at hseg
                rcases hseg with h | rfl
                · exact innerEmit_segs hdiv seg h
                · exact h4
              · intro x hx
                exact hmidsub x hx
            · rw [if_neg h4]
              constructor
              · intro seg hseg
                simp only [List.nil_append] at hseg
                exact innerEmit_segs hdiv seg hseg
              · intro x hx
                exact hmidsub x hx

theorem processGops_segs (km : Bool) :
    ∀ (rows : List (ℤ × ℚ × ℚ × ℤ × ℤ)) (ps : List (ℚ × ℚ)),
      (∀ row ∈ rows, row.2.1 < row.2.2.1) →
      (∀ q ∈ ps, q.1 < q.2) →
      ∀ seg ∈ processGops km rows ps, seg.start_time < seg.end_time := by
  intro rows
  induction rows with
  | nil => intro ps _ _ seg h; simp [processGops] at h
  | cons row rest ih =>
    intro ps hrows hiv seg hseg
    obtain ⟨gi, i, o, dI, dO⟩ := row
    have hio : i < o := hrows _ (List.mem_cons_self _ _)
    unfold processGops at hseg
    rw [List.mem_append] at hseg
    rcases hseg with h | h
    · exact (gopStep_props km gi i o dI dO ps hio hiv).1 seg h
    · exact ih _ (fun r hr => hrows r (List.mem_cons_of_mem _ hr))
        (fun x hx => hiv x ((gopStep_props km gi i o dI dO ps hio hiv).2 x hx)) seg h

theorem chain'_mem_zip {α : Type} {r : α → α → Prop} :
    ∀ {l : List α}, List.Chain' r l → ∀ p ∈ l.dropLast.zip l.tail, r p.1 p.2 := by
  intro l
  induction l with
  | nil => intro _ p h; simp at h
  | cons a tl ih =>
    intro hc p hp
    cases tl with
    | nil => simp at hp
    | cons b tl2 =>
      rw [List.chain'_cons] at hc
      rw [List.dropLast_cons₂, List.tail_cons, List.zip_cons_cons] at hp
      rcases List.mem_cons.mp hp with rfl | hp2
      · exact hc.1
      · exact ih hc.2 p hp2

theorem gopRowsAux_mem_zip {row : ℤ × ℚ × ℚ × ℤ × ℤ} :
    ∀ {n : ℤ} {as bs : List ℚ} {cs ds : List ℤ},
      row ∈ gopRowsAux n as bs cs ds → (row.2.1, row.2.2.1) ∈ as.zip bs := by
  intro n as
  induction as generalizing n with
  | nil => intro bs cs ds h; simp [gopRowsAux] at h
  | cons a as ih =>
    intro bs cs ds h
    cases bs with
    | nil => simp [gopRowsAux] at h
    | cons b bs =>
      cases cs with
      | nil => simp [gopRowsAux] at h
      | cons c cs =>
        cases ds with
        | nil => simp [gopRowsAux] at h
        | cons d ds =>
          rw [List.zip_cons_cons]
          unfold gopRowsAux at h
          rcases List.mem_cons.mp h with rfl | h2
          · exact List.mem_cons_self _ _
          · exact List.mem_cons_of_mem _ (ih h2)

theorem sliceAudioSegments_bounds :
    ∀ (s e : ℚ), ∀ seg ∈ sliceAudioSegments s e,
      seg.require_recode = false ∧ seg.end_time - seg.start_time ≤ 20 := by
  intro s e
  induction s, e using sliceAudioSegments.induct with
  | case1 s e h ih =>
    intro seg hseg
    rw [sliceAudioSegments, dif_pos h] at hseg
    rcases List.mem_cons.mp hseg with rfl | h1
    · exact ⟨rfl, by norm_num⟩
    · exact ih seg h1
  | case2 s e h =>
    intro seg hseg
    rw [sliceAudioSegments, dif_neg h] at hseg
    rcases List.mem_singleton.mp hseg with rfl
    exact ⟨rfl, by linarith [not_lt.mp h]⟩

theorem sliceAudioSegments_pos :
    ∀ (s e : ℚ), s < e → ∀ seg ∈ sliceAudioSegments s e,
      seg.start_time < seg.end_time := by
  intro s e
  induction s, e using sliceAudioSegments.induct with
  | case1 s e h ih =>
    intro _ seg hseg
    rw [sliceAudioSegments, dif_pos h] at hseg
    rcases List.mem_cons.mp hseg with rfl | h1
    · norm_num
    · exact ih (by linarith) seg h1
  | case2 s e h =>
    intro hse seg hseg
    rw [sliceAudioSegments, dif_neg h] at hseg
    rcases List.mem_singleton.mp hseg with rfl
    exact hse

/-- C2 (counterexample): with GOP starts 0 and 10 (sentinel 20 + 1/10000) and
the single interval (5, 15) — which begins after GOP 0's start and ends past
its end — the planner does not emit the recode segment (max(5,0), 15) = (5, 15)
the claim predicts for GOP 0; it emits (5, 10) on GOP 0 (keeping the interval
current) and (10, 15) on GOP 1. -/
theorem make_cut_segments_straddle_counterexample :
    make_cut_segments ⟨true, [0, 10], [0, 100], [99, 199], 0, 20, []⟩ [(5, 15)] false =
      [⟨true, 5, 10, 0, 99, 0⟩, ⟨true, 10, 15, 100, 199, 1⟩] ∧
    CutSegment.mk true 5 15 0 99 0 ∉
      make_cut_segments ⟨true, [0, 10], [0, 100], [99, 199], 0, 20, []⟩ [(5, 15)] false := by
  have h : make_cut_segments ⟨true, [0, 10], [0, 100], [99, 199], 0, 20, []⟩ [(5, 15)] false =
      [⟨true, 5, 10, 0, 99, 0⟩, ⟨true, 10, 15, 100, 199, 1⟩] := by
    norm_num [make_cut_segments, processGops, gopStep, gopRowsAux, advanceIntervals, innerEmit]
  refine ⟨h, ?_⟩
  rw [h]
  intro hmem
  rcases List.mem_cons.mp hmem with h1 | h1
  · exact absurd (congrArg CutSegment.end_time h1) (by norm_num)
  · rcases List.mem_singleton.mp h1 with h2
    exact absurd (congrArg CutSegment.start_time h2) (by norm_num)

/-- C2 (amended): for a GOP `[i, o)` whose current interval `(s, e)` begins
strictly inside the GOP (`i < s < o`) and ends past the GOP end (`o < e`),
the planner's GOP iteration emits exactly one recode segment with time bounds
`(max(s, i), min(e, o)) = (s, o)` tagged with this GOP's DTS bounds and
index, and leaves the interval cursor pointing at the same (current)
interval, whose remaining part `[o, e)` is handled by subsequent GOP
iterations. -/
theorem gopStep_interval_past_gop_end (km : Bool) (gi : ℤ) (i o : ℚ) (dI dO : ℤ)
    (q : ℚ × ℚ) (rest : List (ℚ × ℚ))
    (hkm : km = false) (h1 : i < q.1) (h2 : q.1 < o) (h3 : o < q.2) :
    gopStep km gi i o dI dO (q :: rest) =
      ([⟨true, q.1, o, dI, dO, gi⟩], q :: rest) := by
  subst hkm
  have hA : advanceIntervals i (q :: rest) = q :: rest :=
    advanceIntervals_cons_of_lt (by linarith)
  have hIE : innerEmit o dI dO gi (q :: rest) = ([], q :: rest) := by
    unfold innerEmit
    rw [if_neg (not_lt.mpr h3.le)]
  have hcond : ¬ ((false = true) ∨ (q.1 ≤ i ∧ o ≤ q.2)) := by
    rintro (hc | hc)
    · exact Bool.false_ne_true hc
    · exact absurd hc.1 (not_le.mpr h1)
  simp only [gopStep, hA, hIE, if_neg (not_le.mpr h2), if_neg hcond,
    if_neg (not_lt.mpr h1.le), if_pos h2]
  simp

/-- C2 (witness): the amended single-GOP emission at a concrete instance:
GOP `[0, 10)` with interval `(5, 15)`. -/
theorem gopStep_interval_past_gop_end_witness :
    gopStep false 0 0 10 0 99 [(5, 15)] = ([⟨true, 5, 10, 0, 99, 0⟩], [(5, 15)]) := by
  have h := gopStep_interval_past_gop_end false 0 0 10 0 99 (5, 15) [] rfl
    (by norm_num) (by norm_num) (by norm_num)
  simpa using h

/-- C4 (counterexample): on a video-less index whose single audio track has
its only packet at t = 0 and the interval list [(5, 6)] (ascending, disjoint,
5 < 6), the planner emits the segment (5, 1/10000) with start_time ≥
end_time: the interval is clamped to the audio span [0, 1/10000) lying
entirely before it. -/
theorem make_cut_segments_order_counterexample :
    make_cut_segments ⟨false, [], [], [], 0, 0, [0]⟩ [(5, 6)] false =
      [⟨false, 5, 1/10000, -1, -1, -1⟩] ∧
    ¬ ((5 : ℚ) < 1/10000) := by
  constructor
  · have hs : sliceAudioSegments (5 : ℚ) (1/10000) = [⟨false, 5, 1/10000, -1, -1, -1⟩] := by
      rw [sliceAudioSegments, dif_neg (by norm_num)]
    norm_num [make_cut_segments, max_def, min_def, hs]
  · norm_num

/-- C4 (amended): for every media index whose GOP start times followed by the
end sentinel are strictly increasing, and every interval list that is
ascending, disjoint and with s < e in each interval — and, on a video-less
index, whose intervals each still overlap the first audio track's time span
after clamping — every CutSegment returned by make_cut_segments satisfies
start_time < end_time. -/
theorem make_cut_segments_times_ordered (mc : PlannerIndex) (positive : List (ℚ × ℚ))
    (km : Bool)
    (hiv : ∀ q ∈ positive, q.1 < q.2)
    (_hasc : List.Chain' (fun a b : ℚ × ℚ => a.2 ≤ b.1) positive)
    (hchain : List.Chain' (· < ·)
      (mc.gopStartTimesPtsS ++ [mc.startTime + mc.duration + 1/10000]))
    (hclamp : mc.hasVideo = false → ∀ q ∈ positive,
      max q.1 (mc.firstAudioFrameTimes.headD 0) <
        min q.2 (mc.firstAudioFrameTimes.getLastD 0 + 1/10000)) :
    ∀ seg ∈ make_cut_segments mc positive km, seg.start_time < seg.end_time := by
  intro seg hseg
  unfold make_cut_segments at hseg
  by_cases hv : mc.hasVideo = false
  · rw [if_pos hv] at hseg
    simp only [List.mem_flatMap] at hseg
    obtain ⟨p, hp, hmem⟩ := hseg
    exact sliceAudioSegments_pos _ _ (hclamp hv p hp) seg hmem
  · rw [if_neg hv] at hseg
    refine processGops_segs km _ positive ?_ hiv seg hseg
    intro row hrow
    exact chain'_mem_zip hchain _ (gopRowsAux_mem_zip hrow)

/-- C4 (witness): the amended planning invariant at a concrete video index
with GOPs at 0 and 10 and the interval (0, 5). -/
theorem make_cut_segments_times_ordered_witness :
    ((make_cut_segments ⟨true, [0, 10], [0, 100], [99, 199], 0, 20, []⟩ [(0, 5)] false).all
      fun seg => decide (seg.start_time < seg.end_time)) = true := by
  rw [List.all_eq_true]
  intro seg hseg
  rw [decide_eq_true_eq]
  refine make_cut_segments_times_ordered _ _ _ ?_ ?_ ?_ ?_ seg hseg
  · intro q hq
    rcases List.mem_singleton.mp hq with rfl
    norm_num
  · simp
  · simp only [List.cons_append, List.nil_append, List.chain'_cons, List.chain'_singleton,
      and_true]
    norm_num
  · intro h
    simp at h

/-- C7 (counterexample): on a video-less index with audio packets at t = 0
and t = 30 and the interval (0, 20), the planner emits a single copy
segment of length exactly 20 s, exceeding the claimed 19 s maximum. -/
theorem make_cut_segments_no_video_counterexample :
    make_cut_segments ⟨false, [], [], [], 0, 0, [0, 30]⟩ [(0, 20)] false =
      [⟨false, 0, 20, -1, -1, -1⟩] ∧
    ¬ ((20 : ℚ) - 0 ≤ 19) := by
  constructor
  · have hs : sliceAudioSegments (0 : ℚ) 20 = [⟨false, 0, 20, -1, -1, -1⟩] := by
      rw [sliceAudioSegments, dif_neg (by norm_num)]
    norm_num [make_cut_segments, max_def, min_def, hs]
  · norm_num

/-- C7 (amended): when the source has no video stream, every CutSegment
emitted by make_cut_segments has require_recode = false and length
end_time - start_time of at most 20 seconds (full slices are 19 s, the
final remainder of each interval can reach 20 s). -/
theorem make_cut_segments_no_video_bounds (mc : PlannerIndex) (positive : List (ℚ × ℚ))
    (km : Bool) (hv : mc.hasVideo = false) :
    ∀ seg ∈ make_cut_segments mc positive km,
      seg.require_recode = false ∧ seg.end_time - seg.start_time ≤ 20 := by
  intro seg hseg
  unfold make_cut_segments at hseg
  rw [if_pos hv] at hseg
  simp only [List.mem_flatMap] at hseg
  obtain ⟨p, _, hmem⟩ := hseg
  exact sliceAudioSegments_bounds _ _ seg hmem

/-- C7 (witness): the amended video-less bound at a concrete index with
audio span [0, 50] and intervals (0, 2) and (10, 45). -/
theorem make_cut_segments_no_video_bounds_witness :
    ((make_cut_segments ⟨false, [], [], [], 0, 50, [0, 50]⟩ [(0, 2), (10, 45)] false).all
      fun seg => !seg.require_recode && decide (seg.end_time - seg.start_time ≤ 20)) = true := by
  rw [List.all_eq_true]
  intro seg hseg
  have h := make_cut_segments_no_video_bounds ⟨false, [], [], [], 0, 50, [0, 50]⟩
    [(0, 2), (10, 45)] false rfl seg hseg
  simp [h.1, h.2]

/-- C10: when the export mode is RECODE, every planned CutSegment — including
those the planner marked as whole-GOP copies — has require_recode = true, so
no segment of the export takes the copy/remux path. -/
theorem smart_cut_plan_recode_all (mc : PlannerIndex) (positive : List (ℚ × ℚ))
    (mode : VideoExportMode) (h : mode = VideoExportMode.recode) :
    ∀ c ∈ smart_cut_plan mc positive mode, c.require_recode = true := by
  subst h
  intro c hc
  unfold smart_cut_plan at hc
  rw [if_pos rfl] at hc
  rw [List.mem_map] at hc
  obtain ⟨a, _, rfl⟩ := hc
  rfl

/-- C10 (witness): the RECODE-mode override at a concrete video-less index
and interval. -/
theorem smart_cut_plan_recode_all_witness :
    ((smart_cut_plan ⟨false, [], [], [], 100, 100, [0, 50]⟩ [(0, 1)]
        VideoExportMode.recode).all fun c => c.require_recode) = true := by
  rw [List.all_eq_true]
  intro c hc
  simpa using smart_cut_plan_recode_all _ _ _ rfl c hc

/-! Section: Theorems: per-stream timestamp repair -/

theorem chain'_stitch {α : Type} {r : α → α → Prop} {x m : α} {l₁ l₂ : List α}
    (h1 : List.Chain' r (x :: l₁)) (hm : (x :: l₁).getLast? = some m)
    (h2 : List.Chain' r (m :: l₂)) : List.Chain' r (x :: (l₁ ++ l₂)) := by
  have hj : ∀ a ∈ (x :: l₁).getLast?, ∀ b ∈ l₂.head?, r a b := by
    intro a ha b hb
    rw [hm, Option.mem_some_iff] at ha
    subst ha
    exact (List.chain'_cons'.mp h2).1 b hb
  have := List.Chain'.append h1 (List.Chain'.tail h2) hj
  simpa using this

theorem getLast?_stitch {α : Type} {x m g : α} {l₁ l₂ : List α}
    (hm : (x :: l₁).getLast? = some m) (hg : (m :: l₂).getLast? = some g) :
    (x :: (l₁ ++ l₂)).getLast? = some g := by
  cases l₂ with
  | nil =>
    simp only [List.getLast?_singleton, Option.some.injEq] at hg
    subst hg
    simpa using hm
  | cons b l₂ =>
    rw [List.getLast?_cons_cons] at hg
    rw [show x :: (l₁ ++ b :: l₂) = (x :: l₁) ++ (b :: l₂) by simp,
      List.getLast?_append_cons]
    exact hg

theorem fixVideoPackets_sound (ps : List VPacket) : ∀ (lastDts : ℤ),
    (∀ p ∈ ps, ∃ d, p.dts = some d ∧ -900000 ≤ d ∧ d ≤ 1000000000000) →
    List.Chain' (· < ·) (lastDts :: (fixVideoPackets lastDts ps).filterMap VPacket.dts) ∧
    ∀ p ∈ fixVideoPackets lastDts ps, ∀ q d, p.pts = some q → p.dts = some d → d ≤ q := by
  induction ps with
  | nil => intro lastDts _; simp [fixVideoPackets]
  | cons p rest ih =>
    intro lastDts hall
    obtain ⟨d, hd, hlo, hhi⟩ := hall p (List.mem_cons_self _ _)
    have hkey : ∃ d1 pts1, fixPacketTimestamps lastDts p = (⟨pts1, some d1⟩, d1) ∧
        lastDts < d1 ∧ ∀ q, pts1 = some q → d1 ≤ q := by
      cases hq : p.pts with
      | none =>
        refine ⟨if d ≤ lastDts then lastDts + 1 else d, none, ?_, ?_, ?_⟩
        · simp only [fixPacketTimestamps, hd, hq]
          rw [if_neg (by omega)]
        · split <;> omega
        · intro q hq2; simp at hq2
      | some q =>
        refine ⟨if d ≤ lastDts then lastDts + 1 else d,
          if q < (if d ≤ lastDts then lastDts + 1 else d)
            then some (if d ≤ lastDts then lastDts + 1 else d) else some q, ?_, ?_, ?_⟩
        · simp only [fixPacketTimestamps, hd, hq]
          rw [if_neg (by omega)]
        · split <;> omega
        · intro q2 hq2
          split_ifs at hq2 ⊢ <;> simp only [Option.some.injEq] at hq2 <;> omega
    obtain ⟨d1, pts1, hfix, hlt, hpd⟩ := hkey
    have ihh := ih d1 (fun x hx => hall x (List.mem_cons_of_mem _ hx))
    constructor
    · simp only [fixVideoPackets, hfix, List.filterMap_cons, List.chain'_cons]
      exact ⟨hlt, ihh.1⟩
    · intro x hx
      simp only [fixVideoPackets, hfix] at hx
      rcases List.mem_cons.mp hx with rfl | hx2
      · intro q dd hq hdd
        simp only [Option.some.injEq] at hdd
        subst hdd
        exact hpd q hq
      · exact ihh.2 x hx2

theorem audioEmitPackets_sound (offset : ℚ) :
    ∀ (l : List AudPacket) (prevPts prevDts : ℤ),
      prevDts ≤ prevPts →
      (∀ p ∈ l, ∀ q d, p.pts = some q → p.dts = some d → d ≤ q) →
      List.Chain' (· < ·)
        (prevDts :: (audioEmitPackets offset prevPts prevDts l).1.filterMap AudPacket.dts) ∧
      List.Chain' (· < ·)
        (prevPts :: (audioEmitPackets offset prevPts prevDts l).1.filterMap AudPacket.pts) ∧
      (∀ p ∈ (audioEmitPackets offset prevPts prevDts l).1,
        ∀ q d, p.pts = some q → p.dts = some d → d ≤ q) ∧
      (prevDts :: (audioEmitPackets offset prevPts prevDts l).1.filterMap AudPacket.dts).getLast?
        = some (audioEmitPackets offset prevPts prevDts l).2.2 ∧
      (prevPts :: (audioEmitPackets offset prevPts prevDts l).1.filterMap AudPacket.pts).getLast?
        = some (audioEmitPackets offset prevPts prevDts l).2.1 ∧
      (audioEmitPackets offset prevPts prevDts l).2.2 ≤
        (audioEmitPackets offset prevPts prevDts l).2.1 := by
  intro l
  induction l with
  | nil =>
    intro prevPts prevDts hpd _
    simp only [audioEmitPackets, List.filterMap_nil]
    exact ⟨by simp, by simp, by simp, by simp, by simp, hpd⟩
  | cons p rest ih =>
    intro prevPts prevDts hpd hall
    have hallrest : ∀ x ∈ rest, ∀ q d, x.pts = some q → x.dts = some d → d ≤ q :=
      fun x hx => hall x (List.mem_cons_of_mem _ hx)
    cases hq : p.pts with
    | none =>
      cases hdd : p.dts with
      | none =>
        have heq : audioEmitPackets offset prevPts prevDts (p :: rest) =
            audioEmitPackets offset prevPts prevDts rest := by
          simp only [audioEmitPackets, hq, hdd]
        rw [heq]
        exact ih prevPts prevDts hpd hallrest
      | some d =>
        have heq : audioEmitPackets offset prevPts prevDts (p :: rest) =
            audioEmitPackets offset prevPts prevDts rest := by
          simp only [audioEmitPackets, hq, hdd]
        rw [heq]
        exact ih prevPts prevDts hpd hallrest
    | some q =>
      cases hdd : p.dts with
      | none =>
        have heq : audioEmitPackets offset prevPts prevDts (p :: rest) =
            audioEmitPackets offset prevPts prevDts rest := by
          simp only [audioEmitPackets, hq, hdd]
        rw [heq]
        exact ih prevPts prevDts hpd hallrest
      | some d =>
        have hdq : d ≤ q := hall p (List.mem_cons_self _ _) q d hq hdd
        have h0 : pytrunc ((d : ℚ) + offset) ≤ pytrunc ((q : ℚ) + offset) :=
          pytrunc_mono (by
            have : (d : ℚ) ≤ (q : ℚ) := by exact_mod_cast hdq
            linarith)
        have heq : audioEmitPackets offset prevPts prevDts (p :: rest) =
            (⟨some (if pytrunc ((q : ℚ) + offset) ≤ prevPts then prevPts + 1
                    else pytrunc ((q : ℚ) + offset)),
              some (if pytrunc ((d : ℚ) + offset) ≤ prevDts then prevDts + 1
                    else pytrunc ((d : ℚ) + offset))⟩ ::
              (audioEmitPackets offset
                (if pytrunc ((q : ℚ) + offset) ≤ prevPts then prevPts + 1
                  else pytrunc ((q : ℚ) + offset))
                (if pytrunc ((d : ℚ) + offset) ≤ prevDts then prevDts + 1
                  else pytrunc ((d : ℚ) + offset)) rest).1,
              (audioEmitPackets offset
                (if pytrunc ((q : ℚ) + offset) ≤ prevPts then prevPts + 1
                  else pytrunc ((q : ℚ) + offset))
                (if pytrunc ((d : ℚ) + offset) ≤ prevDts then prevDts + 1
                  else pytrunc ((d : ℚ) + offset)) rest).2) := by
          simp only [audioEmitPackets, hq, hdd]
        set newPts := if pytrunc ((q : ℚ) + offset) ≤ prevPts then prevPts + 1
          else pytrunc ((q : ℚ) + offset) with hNP
        set newDts := if pytrunc ((d : ℚ) + offset) ≤ prevDts then prevDts + 1
          else pytrunc ((d : ℚ) + offset) with hND
        have hfacts : prevPts < newPts ∧ prevDts < newDts ∧ newDts ≤ newPts := by
          rw [hNP, hND]
          split_ifs <;> omega
        have ihh := ih newPts newDts hfacts.2.2 hallrest
        rw [heq]
        simp only [List.filterMap_cons, List.chain'_cons, List.getLast?_cons_cons]
        refine ⟨⟨hfacts.2.1, ihh.1⟩, ⟨hfacts.1, ihh.2.1⟩, ?_, ihh.2.2.2.1, ihh.2.2.2.2.1,
          ihh.2.2.2.2.2⟩
        intro x hx
        rcases List.mem_cons.mp hx with rfl | hx2
        · intro q2 d2 hq2 hd2
          simp only [Option.some.injEq] at hq2 hd2
          omega
        · exact ihh.2.2.1 x hx2

theorem runAudioSegments_sound (inTb : ℚ) (packets : List AudPacket) (framePts : List ℤ)
    (hall : ∀ p ∈ packets, ∀ q d, p.pts = some q → p.dts = some d → d ≤ q) :
    ∀ (css : List CutSegment) (st : AudioCutterState), st.prevDts ≤ st.prevPts →
      ∃ fd fp,
        List.Chain' (· < ·)
          (st.prevDts :: (runAudioSegments inTb packets framePts st css).filterMap AudPacket.dts) ∧
        List.Chain' (· < ·)
          (st.prevPts :: (runAudioSegments inTb packets framePts st css).filterMap AudPacket.pts) ∧
        (∀ p ∈ runAudioSegments inTb packets framePts st css,
          ∀ q d, p.pts = some q → p.dts = some d → d ≤ q) ∧
        (st.prevDts :: (runAudioSegments inTb packets framePts st css).filterMap
          AudPacket.dts).getLast? = some fd ∧
        (st.prevPts :: (runAudioSegments inTb packets framePts st css).filterMap
          AudPacket.pts).getLast? = some fp ∧
        fd ≤ fp := by
  intro css
  induction css with
  | nil =>
    intro st hpd
    exact ⟨st.prevDts, st.prevPts, by simp [runAudioSegments], by simp [runAudioSegments],
      by simp [runAudioSegments], by simp [runAudioSegments], by simp [runAudioSegments], hpd⟩
  | cons cs rest ih =>
    intro st hpd
    have hslice : ∀ p ∈ (packets.drop (if cs.start_time ≤ 0 then 0
          else searchsortedLeft framePts (pyround (cs.start_time / inTb)))).take
        (searchsortedLeft framePts (pyround (cs.end_time / inTb)) -
          (if cs.start_time ≤ 0 then 0
            else searchsortedLeft framePts (pyround (cs.start_time / inTb)))),
        ∀ q d, p.pts = some q → p.dts = some d → d ≤ q := by
      intro p hp
      exact hall p (List.drop_subset _ _ (List.take_subset _ _ hp))
    have haux := audioEmitPackets_sound ((st.segmentStartInOutput - cs.start_time) / inTb)
      _ st.prevPts st.prevDts hpd hslice
    have hseg : passthruAudioSegment inTb packets framePts st cs =
        ((audioEmitPackets ((st.segmentStartInOutput - cs.start_time) / inTb)
            st.prevPts st.prevDts
            ((packets.drop (if cs.start_time ≤ 0 then 0
                else searchsortedLeft framePts (pyround (cs.start_time / inTb)))).take
              (searchsortedLeft framePts (pyround (cs.end_time / inTb)) -
                (if cs.start_time ≤ 0 then 0
                  else searchsortedLeft framePts (pyround (cs.start_time / inTb)))))).1,
          ⟨st.segmentStartInOutput + (cs.end_time - cs.start_time),
            (audioEmitPackets ((st.segmentStartInOutput - cs.start_time) / inTb)
              st.prevPts st.prevDts
              ((packets.drop (if cs.start_time ≤ 0 then 0
                  else searchsortedLeft framePts (pyround (cs.start_time / inTb)))).take
                (searchsortedLeft framePts (pyround (cs.end_time / inTb)) -
                  (if cs.start_time ≤ 0 then 0
                    else searchsortedLeft framePts (pyround (cs.start_time / inTb)))))).2.2,
            (audioEmitPackets ((st.segmentStartInOutput - cs.start_time) / inTb)
              st.prevPts st.prevDts
              ((packets.drop (if cs.start_time ≤ 0 then 0
                  else searchsortedLeft framePts (pyround (cs.start_time / inTb)))).take
                (searchsortedLeft framePts (pyround (cs.end_time / inTb)) -
                  (if cs.start_time ≤ 0 then 0
                    else searchsortedLeft framePts (pyround (cs.start_time / inTb)))))).2.1⟩) :=
      rfl
    set E := audioEmitPackets ((st.segmentStartInOutput - cs.start_time) / inTb)
      st.prevPts st.prevDts
      ((packets.drop (if cs.start_time ≤ 0 then 0
          else searchsortedLeft framePts (pyround (cs.start_time / inTb)))).take
        (searchsortedLeft framePts (pyround (cs.end_time / inTb)) -
          (if cs.start_time ≤ 0 then 0
            else searchsortedLeft framePts (pyround (cs.start_time / inTb))))) with hE
    obtain ⟨hc1, hc2, hmem, hg1, hg2, hfd⟩ := haux
    obtain ⟨fd, fp, ic1, ic2, imem, ig1, ig2, ifd⟩ :=
      ih ⟨st.segmentStartInOutput + (cs.end_time - cs.start_time), E.2.2, E.2.1⟩ hfd
    have hrun : runAudioSegments inTb packets framePts st (cs :: rest) =
        E.1 ++ runAudioSegments inTb packets framePts
          ⟨st.segmentStartInOutput + (cs.end_time - cs.start_time), E.2.2, E.2.1⟩ rest := by
      simp only [runAudioSegments, hseg]
    refine ⟨fd, fp, ?_, ?_, ?_, ?_, ?_, ifd⟩
    · rw [hrun, List.filterMap_append]
      exact chain'_stitch hc1 hg1 ic1
    · rw [hrun, List.filterMap_append]
      exact chain'_stitch hc2 hg2 ic2
    · rw [hrun]
      intro p hp
      rcases List.mem_append.mp hp with hp1 | hp2
      · exact hmem p hp1
      · exact imem p hp2
    · rw [hrun, List.filterMap_append]
      exact getLast?_stitch hg1 ig1
    · rw [hrun, List.filterMap_append]
      exact getLast?_stitch hg2 ig2

theorem subtitleEmit_sound (shift : ℚ) (startPts : ℤ) :
    ∀ (l : List ℤ) (prevPts : ℤ),
      List.Chain' (· ≤ ·)
        (prevPts :: (subtitleEmit shift startPts prevPts l).1.map Prod.fst) ∧
      (∀ e ∈ (subtitleEmit shift startPts prevPts l).1, e.2 = e.1) ∧
      (prevPts :: (subtitleEmit shift startPts prevPts l).1.map Prod.fst).getLast? =
        some (subtitleEmit shift startPts prevPts l).2 := by
  intro l
  induction l with
  | nil =>
    intro prevPts
    simp [subtitleEmit]
  | cons p rest ih =>
    intro prevPts
    have heq : subtitleEmit shift startPts prevPts (p :: rest) =
        ((if pytrunc ((p : ℚ) - (startPts : ℚ) + shift) < prevPts then prevPts + 1
            else pytrunc ((p : ℚ) - (startPts : ℚ) + shift),
          if pytrunc ((p : ℚ) - (startPts : ℚ) + shift) < prevPts then prevPts + 1
            else pytrunc ((p : ℚ) - (startPts : ℚ) + shift)) ::
          (subtitleEmit shift startPts
            (if pytrunc ((p : ℚ) - (startPts : ℚ) + shift) < prevPts then prevPts + 1
              else pytrunc ((p : ℚ) - (startPts : ℚ) + shift)) rest).1,
          (subtitleEmit shift startPts
            (if pytrunc ((p : ℚ) - (startPts : ℚ) + shift) < prevPts then prevPts + 1
              else pytrunc ((p : ℚ) - (startPts : ℚ) + shift)) rest).2) := by
      simp only [subtitleEmit]
    set pts := if pytrunc ((p : ℚ) - (startPts : ℚ) + shift) < prevPts then prevPts + 1
      else pytrunc ((p : ℚ) - (startPts : ℚ) + shift) with hpts
    have hle : prevPts ≤ pts := by
      rw [hpts]; split <;> omega
    have ihh := ih pts
    rw [heq]
    simp only [List.map_cons, List.chain'_cons, List.getLast?_cons_cons]
    refine ⟨⟨hle, ihh.1⟩, ?_, ihh.2.2⟩
    intro e he
    rcases List.mem_cons.mp he with rfl | he2
    · rfl
    · exact ihh.2.1 e he2

theorem runSubtitleSegments_sound (inTb : ℚ) :
    ∀ (css : List CutSegment) (st : SubCutterState),
      ∃ f,
        List.Chain' (· ≤ ·)
          (st.prevPts :: (runSubtitleSegments inTb st css).map Prod.fst) ∧
        (∀ e ∈ runSubtitleSegments inTb st css, e.2 = e.1) ∧
        (st.prevPts :: (runSubtitleSegments inTb st css).map Prod.fst).getLast? = some f := by
  intro css
  induction css with
  | nil =>
    intro st
    exact ⟨st.prevPts, by simp [runSubtitleSegments], by simp [runSubtitleSegments],
      by simp [runSubtitleSegments]⟩
  | cons cs rest ih =>
    intro st
    have haux := subtitleEmit_sound (st.segmentStartInOutput / inTb)
      (pytrunc (cs.start_time / inTb)) (subtitleCollect (pytrunc (cs.start_time / inTb))
        (pytrunc (cs.end_time / inTb)) st.remaining).1 st.prevPts
    set R := subtitleEmit (st.segmentStartInOutput / inTb) (pytrunc (cs.start_time / inTb))
      st.prevPts (subtitleCollect (pytrunc (cs.start_time / inTb))
        (pytrunc (cs.end_time / inTb)) st.remaining).1 with hR
    have hseg : subtitleSegment inTb st cs =
        (R.1, ⟨st.segmentStartInOutput + (cs.end_time - cs.start_time), R.2,
          (subtitleCollect (pytrunc (cs.start_time / inTb))
            (pytrunc (cs.end_time / inTb)) st.remaining).2⟩) := rfl
    obtain ⟨f, ic1, imem, ig⟩ :=
      ih ⟨st.segmentStartInOutput + (cs.end_time - cs.start_time), R.2,
        (subtitleCollect (pytrunc (cs.start_time / inTb))
          (pytrunc (cs.end_time / inTb)) st.remaining).2⟩
    have hrun : runSubtitleSegments inTb st (cs :: rest) =
        R.1 ++ runSubtitleSegments inTb
          ⟨st.segmentStartInOutput + (cs.end_time - cs.start_time), R.2,
            (subtitleCollect (pytrunc (cs.start_time / inTb))
              (pytrunc (cs.end_time / inTb)) st.remaining).2⟩ rest := by
      simp only [runSubtitleSegments, hseg]
    refine ⟨f, ?_, ?_, ?_⟩
    · rw [hrun, List.map_append]
      exact chain'_stitch haux.1 haux.2.2 ic1
    · rw [hrun]
      intro e he
      rcases List.mem_append.mp he with h | h
      · exact haux.2.1 e h
      · exact imem e h
    · rw [hrun, List.map_append]
      exact getLast?_stitch haux.2.2 ig

/-- C1 (amended): per-stream timestamp repair. Video
(`VideoCutter._fix_packet_timestamps`): over any packet sequence whose DTS
values are all present and inside the garbage window [-900000, 10^12], the
emitted DTS sequence is strictly increasing and every packet with a PTS
satisfies PTS ≥ DTS (with an absent or garbage DTS, the fallback can emit
PTS < DTS or, while last_dts is negative, break strictness). Audio
(`PassthruAudioCutter.segment` over any run of segments): provided every
source packet with both timestamps satisfies PTS ≥ DTS, the emitted DTS and
PTS sequences are strictly increasing and every emitted packet satisfies
PTS ≥ DTS. Subtitles (`SubtitleCutter.segment` over any run of segments):
every emitted packet has DTS = PTS and the emitted DTS sequence is
nondecreasing (equal consecutive PTS are not bumped, so only non-strict
monotonicity holds). -/
theorem per_stream_timestamp_repair :
    (∀ ps : List VPacket,
      (∀ p ∈ ps, ∃ d, p.dts = some d ∧ -900000 ≤ d ∧ d ≤ 1000000000000) →
      List.Chain' (· < ·) ((fixVideoPackets (-100000000) ps).filterMap VPacket.dts) ∧
      ∀ p ∈ fixVideoPackets (-100000000) ps,
        ∀ q d, p.pts = some q → p.dts = some d → d ≤ q) ∧
    (∀ (inTb : ℚ) (packets : List AudPacket) (framePts : List ℤ) (css : List CutSegment),
      (∀ p ∈ packets, ∀ q d, p.pts = some q → p.dts = some d → d ≤ q) →
      List.Chain' (· < ·)
        ((runAudioSegments inTb packets framePts ⟨0, -100000, -100000⟩ css).filterMap
          AudPacket.dts) ∧
      List.Chain' (· < ·)
        ((runAudioSegments inTb packets framePts ⟨0, -100000, -100000⟩ css).filterMap
          AudPacket.pts) ∧
      ∀ p ∈ runAudioSegments inTb packets framePts ⟨0, -100000, -100000⟩ css,
        ∀ q d, p.pts = some q → p.dts = some d → d ≤ q) ∧
    (∀ (inTb : ℚ) (subPackets : List ℤ) (css : List CutSegment),
      List.Chain' (· ≤ ·)
        ((runSubtitleSegments inTb ⟨0, -100000, subPackets⟩ css).map Prod.fst) ∧
      ∀ e ∈ runSubtitleSegments inTb ⟨0, -100000, subPackets⟩ css, e.2 = e.1) := by
  refine ⟨?_, ?_, ?_⟩
  · intro ps h
    have := fixVideoPackets_sound ps (-100000000) h
    exact ⟨this.1.tail, this.2⟩
  · intro inTb packets framePts css hall
    obtain ⟨fd, fp, c1, c2, hmem, _, _, _⟩ :=
      runAudioSegments_sound inTb packets framePts hall css ⟨0, -100000, -100000⟩ (by simp)
    exact ⟨c1.tail, c2.tail, hmem⟩
  · intro inTb subPackets css
    obtain ⟨f, c1, hmem, _⟩ := runSubtitleSegments_sound inTb css ⟨0, -100000, subPackets⟩
    exact ⟨c1.tail, hmem⟩

/-- C1 (counterexample): the video repair with its initial last_dts
-100_000_000, fed two packets with absent DTS and PTS 10 then 3, emits
second packet (pts 3, dts 11) with PTS < DTS: the absent-DTS fallback sets
DTS = last_dts + 1 without clamping PTS, refuting PTS ≥ DTS as claimed. -/
theorem per_stream_timestamp_repair_counterexample :
    fixVideoPackets (-100000000) [⟨some 10, none⟩, ⟨some 3, none⟩] =
      [⟨some 10, some 10⟩, ⟨some 3, some 11⟩] ∧ ¬ ((11 : ℤ) ≤ 3) :=
  ⟨rfl, by decide⟩

/-- C1 (witness): the amended repair invariants at concrete inputs for all
three stream kinds. -/
theorem per_stream_timestamp_repair_witness :
    (List.Chain' (· < ·)
        ((fixVideoPackets (-100000000) [⟨some 5, some 5⟩]).filterMap VPacket.dts) ∧
      ∀ p ∈ fixVideoPackets (-100000000) [(⟨some 5, some 5⟩ : VPacket)],
        ∀ q d, p.pts = some q → p.dts = some d → d ≤ q) ∧
    (List.Chain' (· < ·)
        ((runAudioSegments 1 [⟨some 2, some 1⟩] [0, 5] ⟨0, -100000, -100000⟩
          [⟨false, 0, 1, -1, -1, -1⟩]).filterMap AudPacket.dts) ∧
      List.Chain' (· < ·)
        ((runAudioSegments 1 [⟨some 2, some 1⟩] [0, 5] ⟨0, -100000, -100000⟩
          [⟨false, 0, 1, -1, -1, -1⟩]).filterMap AudPacket.pts) ∧
      ∀ p ∈ runAudioSegments 1 [⟨some 2, some 1⟩] [0, 5] ⟨0, -100000, -100000⟩
        [⟨false, 0, 1, -1, -1, -1⟩], ∀ q d, p.pts = some q → p.dts = some d → d ≤ q) ∧
    (List.Chain' (· ≤ ·)
        ((runSubtitleSegments 1 ⟨0, -100000, [0]⟩ [⟨false, 0, 1, -1, -1, -1⟩]).map
          Prod.fst) ∧
      ∀ e ∈ runSubtitleSegments 1 ⟨0, -100000, [0]⟩ [⟨false, 0, 1, -1, -1, -1⟩],
        e.2 = e.1) := by
  refine ⟨per_stream_timestamp_repair.1 _ ?_,
    per_stream_timestamp_repair.2.1 1 _ _ _ ?_,
    per_stream_timestamp_repair.2.2 1 _ _⟩
  · intro p hp
    rcases List.mem_singleton.mp hp with rfl
    exact ⟨5, rfl, by decide, by decide⟩
  · intro p hp
    rcases List.mem_singleton.mp hp with rfl
    intro q d hq hd
    simp only [Option.some.injEq] at hq hd
    omega

/-! Section: Theorems: media index audio construction and the cut driver -/

/-- C5: the claim is right and the code is wrong (code_bug). The demux loop
of MediaContainer.__init__ is meant to build each audio track's packet list
and parallel PTS array, but the AudioTrack constructed at
media_container.py:97 receives the integer track number in its `packets`
field (the call passes `loading_s` into the dataclass's `path` slot,
shifting every later argument), so the first audio packet's
`track.packets.append(packet)` raises AttributeError: evaluating the
embedded loop on a source with a single audio packet with present PTS
yields the crash value `none` instead of a populated track. -/
theorem audio_demux_crashes :
    demuxAudioLoop (mkAudioTrackAtCallSite 0) [(0, some 0)] = none := rfl

theorem segmentLoop_cancel_stops (gens : List StreamGen) (fileEnd : ℚ)
    (cancel : ℕ → Bool)
    (hmono : ∀ k, cancel k = true → cancel (k + 1) = true) :
    ∀ (segs : List CutSegment) (k j : ℕ), j < segs.length → cancel (k + j) = true →
      (∀ s ∈ segs, s.start_time < fileEnd) →
      ∃ n ≤ j, (segmentLoop gens fileEnd cancel segs k).1 =
          (segs.take n).flatMap (muxSegmentEvents gens) ∧
        cancel (segmentLoop gens fileEnd cancel segs k).2 = true := by
  intro segs
  induction segs with
  | nil =>
    intro k j hj
    exact absurd hj (by simp)
  | cons s rest ih =>
    intro k j hj hcj hfits
    by_cases hk : cancel k = true
    · refine ⟨0, Nat.zero_le j, ?_, ?_⟩
      · simp [segmentLoop, hk]
      · simp only [segmentLoop, hk, if_true]
        exact hmono k hk
    · have hk' : cancel k = false := Bool.eq_false_iff.mpr hk
      cases j with
      | zero => rw [Nat.add_zero] at hcj; exact absurd hcj hk
      | succ j' =>
        have hnofe : ¬ (fileEnd ≤ s.start_time) :=
          not_le.mpr (hfits s (List.mem_cons_self _ _))
        have hcj' : cancel (k + 1 + j') = true := by
          have : k + 1 + j' = k + (j' + 1) := by omega
          rw [this]; exact hcj
        obtain ⟨n, hn, h1, h2⟩ := ih (k + 1) j'
          (by simp only [List.length_cons] at hj; omega) hcj'
          (fun x hx => hfits x (List.mem_cons_of_mem _ hx))
        have hstep : segmentLoop gens fileEnd cancel (s :: rest) k =
            (muxSegmentEvents gens s ++ (segmentLoop gens fileEnd cancel rest (k + 1)).1,
              (segmentLoop gens fileEnd cancel rest (k + 1)).2) := by
          simp [segmentLoop, hk', hnofe]
        refine ⟨n + 1, by omega, ?_, ?_⟩
        · rw [hstep, List.take_succ_cons, List.flatMap_cons, h1]
        · rw [hstep]
          exact h2

/-- C8 (amended): when cancellation is observed at a segment boundary (the
cancel flag, monotone once set, is read true before some segment j; it was
not yet set before the output file was opened), smart_cut stops pulling
segment packets from the generators — only segments before j contribute —
but still muxes every generator's finish() flush packets, deletes the
in-progress output file after closing it, and returns None: no value
signalling the Cancelled condition is returned to the caller (the function
body has no return statement). -/
theorem smart_cut_driver_cancelled (segs : List CutSegment) (gens : List StreamGen)
    (fileEnd : ℚ) (cancel : ℕ → Bool) (j : ℕ)
    (hmono : ∀ k, cancel k = true → cancel (k + 1) = true)
    (hc0 : cancel 0 = false)
    (hj : j < segs.length) (hcj : cancel (1 + j) = true)
    (hfits : ∀ s ∈ segs, s.start_time < fileEnd)
    (_hseg : ∀ s ∈ segs, s.start_time < s.end_time) :
    ∃ n ≤ j, smart_cut_driver segs gens fileEnd cancel =
      ((segs.take n).flatMap (muxSegmentEvents gens) ++ muxFinishEvents gens ++
        [DriveEvent.deleteFile], none) := by
  obtain ⟨n, hn, h1, h2⟩ := segmentLoop_cancel_stops gens fileEnd cancel hmono segs 1 j hj hcj hfits
  refine ⟨n, hn, ?_⟩
  simp only [smart_cut_driver, hc0, Bool.false_eq_true, if_false, h1, h2, if_true]

/-- C8 (counterexample): a concrete run of the driver with two segments, one
generator emitting one packet per segment and one flush packet, and
cancellation observed at the boundary before the second segment. The driver
muxes the flush packet after the cancellation observation and returns none
— not a value signalling Cancelled — refuting the claim that no further
packets are emitted and that the return value signals the Cancelled
condition (the file deletion does happen). -/
theorem smart_cut_driver_counterexample :
    smart_cut_driver [⟨false, 0, 1, -1, -1, -1⟩, ⟨false, 1, 2, -1, -1, -1⟩]
      [⟨fun _ => [1], [2]⟩] 10 (fun k => decide (2 ≤ k)) =
      ([DriveEvent.mux 1, DriveEvent.mux 2, DriveEvent.deleteFile], none) ∧
    (none : Option DriveSignal) ≠ some DriveSignal.cancelled := by
  constructor
  · rfl
  · simp

/-- C8 (witness): the amended cancellation behavior at a concrete input:
one segment, cancellation observed at its boundary, so no segment packets
are pulled, the flush packets are muxed, the file is deleted and the
return value is none. -/
theorem smart_cut_driver_cancelled_witness :
    smart_cut_driver [⟨false, 0, 1, -1, -1, -1⟩] [⟨fun _ => [1], [2]⟩] 10
      (fun k => decide (1 ≤ k)) =
      (muxFinishEvents [⟨fun _ => [1], [2]⟩] ++ [DriveEvent.deleteFile], none) := by
  obtain ⟨n, hn, h⟩ := smart_cut_driver_cancelled [⟨false, 0, 1, -1, -1, -1⟩]
    [⟨fun _ => [1], [2]⟩] 10 (fun k => decide (1 ≤ k)) 0
    (by intro k hk; simp only [decide_eq_true_eq] at hk ⊢; omega)
    (by decide) (by norm_num) (by decide)
    (by intro s hs; rcases List.mem_singleton.mp hs with rfl; norm_num)
    (by intro s hs; rcases List.mem_singleton.mp hs with rfl; norm_num)
  have hn0 : n = 0 := Nat.le_zero.mp hn
  subst hn0
  simpa using h

/-! Section: Theorems: RASL / leading-pictures pass -/

theorem raslFold_fst : ∀ (l : List H265Pkt) (b : Bool) (o : Option ℤ),
    (l.foldl raslLeadingStep (b, o)).1 =
      (b || l.any fun pkt => is_rasl_nal_type (get_h265_nal_unit_type pkt.payload)) := by
  intro l
  induction l with
  | nil => intro b o; simp
  | cons p rest ih =>
    intro b o
    have hstep : raslLeadingStep (b, o) p =
        (b || is_rasl_nal_type (get_h265_nal_unit_type p.payload),
         if is_leading_picture_nal_type (get_h265_nal_unit_type p.payload) then
           some (match o with
                 | none => p.dts
                 | some x => max x p.dts)
         else o) := rfl
    simp only [List.foldl_cons, List.any_cons, hstep, ih, Bool.or_assoc]

theorem raslFold_snd_none : ∀ (l : List H265Pkt) (b : Bool) (o : Option ℤ),
    ((l.foldl raslLeadingStep (b, o)).2 = none ↔
      o = none ∧
        ∀ p ∈ l, is_leading_picture_nal_type (get_h265_nal_unit_type p.payload) = false) := by
  intro l
  induction l with
  | nil => intro b o; simp
  | cons p rest ih =>
    intro b o
    have hstep : raslLeadingStep (b, o) p =
        (b || is_rasl_nal_type (get_h265_nal_unit_type p.payload),
         if is_leading_picture_nal_type (get_h265_nal_unit_type p.payload) then
           some (match o with
                 | none => p.dts
                 | some x => max x p.dts)
         else o) := rfl
    simp only [List.foldl_cons, hstep]
    by_cases hl : is_leading_picture_nal_type (get_h265_nal_unit_type p.payload) = true
    · rw [if_pos hl, ih]
      constructor
      · rintro ⟨h1, _⟩
        exact absurd h1 (by simp)
      · rintro ⟨_, hall⟩
        exact absurd (hall p (List.mem_cons_self _ _)) (by simp [hl])
    · have hl' : is_leading_picture_nal_type (get_h265_nal_unit_type p.payload) = false :=
        Bool.eq_false_iff.mpr hl
      rw [if_neg hl, ih]
      constructor
      · rintro ⟨h1, hall⟩
        refine ⟨h1, ?_⟩
        intro x hx
        rcases List.mem_cons.mp hx with rfl | hx2
        · exact hl'
        · exact hall x hx2
      · rintro ⟨h1, hall⟩
        exact ⟨h1, fun x hx => hall x (List.mem_cons_of_mem _ hx)⟩

theorem raslFold_snd_some : ∀ (l : List H265Pkt) (b : Bool) (o : Option ℤ) (d : ℤ),
    ((l.foldl raslLeadingStep (b, o)).2 = some d ↔
      ((o = some d ∨ ∃ p ∈ l,
          is_leading_picture_nal_type (get_h265_nal_unit_type p.payload) = true ∧
            p.dts = d) ∧
       (∀ x : ℤ, o = some x → x ≤ d) ∧
       (∀ p ∈ l, is_leading_picture_nal_type (get_h265_nal_unit_type p.payload) = true →
          p.dts ≤ d))) := by
  intro l
  induction l with
  | nil =>
    intro b o d
    simp only [List.foldl_nil]
    constructor
    · intro h
      refine ⟨Or.inl h, ?_, by simp⟩
      intro x hx
      rw [h] at hx
      injection hx with hx
      omega
    · rintro ⟨hatt, _, _⟩
      rcases hatt with h | ⟨x, hx, _, _⟩
      · exact h
      · simp at hx
  | cons p rest ih =>
    intro b o d
    have hstep : raslLeadingStep (b, o) p =
        (b || is_rasl_nal_type (get_h265_nal_unit_type p.payload),
         if is_leading_picture_nal_type (get_h265_nal_unit_type p.payload) then
           some (match o with
                 | none => p.dts
                 | some x => max x p.dts)
         else o) := rfl
    simp only [List.foldl_cons, hstep]
    by_cases hl : is_leading_picture_nal_type (get_h265_nal_unit_type p.payload) = true
    · rw [if_pos hl]
      cases o with
      | none =>
        have hm : (match (none : Option ℤ) with
                   | none => p.dts
                   | some x => max x p.dts) = p.dts := rfl
        rw [hm, ih]
        constructor
        · rintro ⟨hatt, hub, hbound⟩
          have hpd : p.dts ≤ d := hub p.dts rfl
          refine ⟨?_, ?_, ?_⟩
          · rcases hatt with heq | ⟨x, hx1, hx2, hx3⟩
            · injection heq with heq
              exact Or.inr ⟨p, List.mem_cons_self _ _, hl, heq⟩
            · exact Or.inr ⟨x, List.mem_cons_of_mem _ hx1, hx2, hx3⟩
          · intro x hx
            exact absurd hx (by simp)
          · intro x hx hlx
            rcases List.mem_cons.mp hx with rfl | hx2
            · exact hpd
            · exact hbound x hx2 hlx
        · rintro ⟨hatt, _, hbound⟩
          have hpd : p.dts ≤ d := hbound p (List.mem_cons_self _ _) hl
          refine ⟨?_, ?_, fun y hy hly => hbound y (List.mem_cons_of_mem _ hy) hly⟩
          · rcases hatt with heq | ⟨x, hx1, hx2, hx3⟩
            · exact absurd heq (by simp)
            · rcases List.mem_cons.mp hx1 with rfl | hmem
              · exact Or.inl (by rw [hx3])
              · exact Or.inr ⟨x, hmem, hx2, hx3⟩
          · intro y hy
            injection hy with hy
            omega
      | some m =>
        have hm : (match (some m : Option ℤ) with
                   | none => p.dts
                   | some x => max x p.dts) = max m p.dts := rfl
        rw [hm, ih]
        constructor
        · rintro ⟨hatt, hub, hbound⟩
          have hmax : max m p.dts ≤ d := by
            rcases hatt with heq | _
            · injection heq with heq
              omega
            · exact hub _ rfl
          have hmd : m ≤ d := le_trans (le_max_left _ _) hmax
          have hpd : p.dts ≤ d := le_trans (le_max_right _ _) hmax
          refine ⟨?_, ?_, ?_⟩
          · rcases hatt with heq | ⟨x, hx1, hx2, hx3⟩
            · injection heq with heq
              rcases max_choice m p.dts with hc | hc
              · rw [hc] at heq
                exact Or.inl (by rw [heq])
              · rw [hc] at heq
                exact Or.inr ⟨p, List.mem_cons_self _ _, hl, heq⟩
            · exact Or.inr ⟨x, List.mem_cons_of_mem _ hx1, hx2, hx3⟩
          · intro x hx
            injection hx with hx
            omega
          · intro x hx hlx
            rcases List.mem_cons.mp hx with rfl | hx2
            · exact hpd
            · exact hbound x hx2 hlx
        · rintro ⟨hatt, hub, hbound⟩
          have hmd : m ≤ d := hub m rfl
          have hpd : p.dts ≤ d := hbound p (List.mem_cons_self _ _) hl
          refine ⟨?_, ?_, fun y hy hly => hbound y (List.mem_cons_of_mem _ hy) hly⟩
          · rcases hatt with heq | ⟨y, hy1, hy2, hy3⟩
            · injection heq with heq
              have hmx : max m p.dts = d := by
                rw [heq]
                exact max_eq_left hpd
              exact Or.inl (by rw [hmx])
            · rcases List.mem_cons.mp hy1 with heq2 | hmem
              · have hpdd : p.dts = d := by rw [← heq2]; exact hy3
                have hmx : max m p.dts = d := by
                  rw [hpdd]
                  exact max_eq_right hmd
                exact Or.inl (by rw [hmx])
              · exact Or.inr ⟨y, hmem, hy2, hy3⟩
          · intro y hy
            injection hy with hy
            have hmx : max m p.dts ≤ d := max_le hmd hpd
            omega
    · have hl' : is_leading_picture_nal_type (get_h265_nal_unit_type p.payload) = false :=
        Bool.eq_false_iff.mpr hl
      rw [if_neg hl, ih]
      constructor
      · rintro ⟨hatt, hub, hbound⟩
        refine ⟨?_, hub, ?_⟩
        · rcases hatt with h | ⟨x, hx1, hx2, hx3⟩
          · exact Or.inl h
          · exact Or.inr ⟨x, List.mem_cons_of_mem _ hx1, hx2, hx3⟩
        · intro x hx hlx
          rcases List.mem_cons.mp hx with rfl | hx2
          · rw [hl'] at hlx
            exact absurd hlx (by simp)
          · exact hbound x hx2 hlx
      · rintro ⟨hatt, hub, hbound⟩
        refine ⟨?_, hub, fun y hy hly => hbound y (List.mem_cons_of_mem _ hy) hly⟩
        rcases hatt with h | ⟨x, hx1, hx2, hx3⟩
        · exact Or.inl h
        · rcases List.mem_cons.mp hx1 with rfl | hmem
          · rw [hl'] at hx2
            exact absurd hx2 (by simp)
          · exact Or.inr ⟨x, hmem, hx2, hx3⟩

/-- C3 (spec-modelled): the RASL/leading-pictures pass — absent from the
sources and modelled from the spec — provides, for every GOP i, a
gop_has_rasl flag that is true iff some packet of the GOP classifies as a
RASL NAL type (8 or 9), and a gop_leading_end_dts value equal to the largest
DTS of any leading (RASL or RADL) picture of the GOP, absent exactly when
the GOP has no leading picture; these are the arrays VideoCutter reads for
recode priming and hybrid-CRA handling. -/
theorem raslPass_characterization (gops : List (List H265Pkt)) (i : ℕ)
    (h : i < gops.length) :
    (raslPass gops).get ⟨i, by simpa [raslPass] using h⟩ =
      gopRaslScan (gops.get ⟨i, h⟩) ∧
    ((gopRaslScan (gops.get ⟨i, h⟩)).1 = true ↔
      ∃ pkt ∈ gops.get ⟨i, h⟩,
        is_rasl_nal_type (get_h265_nal_unit_type pkt.payload) = true) ∧
    (∀ d : ℤ, ((gopRaslScan (gops.get ⟨i, h⟩)).2 = some d ↔
      ((∃ pkt ∈ gops.get ⟨i, h⟩,
          is_leading_picture_nal_type (get_h265_nal_unit_type pkt.payload) = true ∧
            pkt.dts = d) ∧
       ∀ pkt ∈ gops.get ⟨i, h⟩,
         is_leading_picture_nal_type (get_h265_nal_unit_type pkt.payload) = true →
           pkt.dts ≤ d))) ∧
    ((gopRaslScan (gops.get ⟨i, h⟩)).2 = none ↔
      ∀ pkt ∈ gops.get ⟨i, h⟩,
        is_leading_picture_nal_type (get_h265_nal_unit_type pkt.payload) = false) := by
  refine ⟨by simp [raslPass, List.get_eq_getElem], ?_, ?_, ?_⟩
  · rw [gopRaslScan, raslFold_fst]
    simp [List.any_eq_true]
  · intro d
    rw [gopRaslScan, raslFold_snd_some]
    constructor
    · rintro ⟨hatt, _, hbound⟩
      rcases hatt with h2 | h2
      · exact absurd h2 (by simp)
      · exact ⟨h2, hbound⟩
    · rintro ⟨hatt, hbound⟩
      exact ⟨Or.inr hatt, by simp, hbound⟩
  · rw [gopRaslScan, raslFold_snd_none]
    simp

/-- C3 (witness): the characterization at a concrete one-GOP index whose
single packet has an unclassifiable payload. -/
theorem raslPass_characterization_witness :
    ((gopRaslScan [H265Pkt.mk [] 7]).1 = true ↔
      ∃ pkt ∈ [H265Pkt.mk [] 7],
        is_rasl_nal_type (get_h265_nal_unit_type pkt.payload) = true) ∧
    ((gopRaslScan [H265Pkt.mk [] 7]).2 = none ↔
      ∀ pkt ∈ [H265Pkt.mk [] 7],
        is_leading_picture_nal_type (get_h265_nal_unit_type pkt.payload) = false) := by
  have h := raslPass_characterization [[H265Pkt.mk [] 7]] 0 (by norm_num)
  constructor
  · have := h.2.1
    simpa using this
  · have := h.2.2.2
    simpa using this

/-! Section: Theorems: NAL classifiers -/

theorem lpScan265_eq (data : List ℕ) : ∀ (i : ℕ) (acc : List ℕ),
    lpScan265 data i acc =
      match (lpTypes265 data i).find? (fun t => decide (16 ≤ t) && decide (t ≤ 20)) with
      | some t => Sum.inl t
      | none => Sum.inr (acc ++ lpTypes265 data i) := by
  intro i
  induction i using lpTypes265.induct data with
  | case1 x hx nalLen hB =>
    intro acc
    have hnl : nalLen = be32 data x := rfl
    rw [hnl] at hB
    rw [lpScan265.eq_def, lpTypes265.eq_def, dif_pos hx, dif_pos hx]
    dsimp only
    rw [dif_pos hB, dif_pos hB]
    simp
  | case2 x hx nalLen hB hlen ih =>
    intro acc
    have hnl : nalLen = be32 data x := rfl
    rw [hnl] at hB ih
    rw [lpScan265.eq_def, lpTypes265.eq_def, dif_pos hx, dif_pos hx]
    dsimp only
    rw [dif_neg hB, dif_neg hB, if_pos hlen, if_pos hlen]
    by_cases hbl : 16 ≤ nalType265At data (x + 4) ∧ nalType265At data (x + 4) ≤ 20
    · rw [if_pos hbl, List.find?_cons_of_pos _ (by simp [hbl.1, hbl.2])]
    · rw [if_neg hbl, List.find?_cons_of_neg _ (by simpa using hbl), ih]
      cases hf : (lpTypes265 data (x + 4 + be32 data x)).find?
          (fun t => decide (16 ≤ t) && decide (t ≤ 20)) with
      | some t => rfl
      | none => simp
  | case3 x hx nalLen hB hlen ih =>
    intro acc
    have hnl : nalLen = be32 data x := rfl
    rw [hnl] at hB ih
    rw [lpScan265.eq_def, lpTypes265.eq_def, dif_pos hx, dif_pos hx]
    dsimp only
    rw [dif_neg hB, dif_neg hB, if_neg hlen, if_neg hlen]
    exact ih acc
  | case4 x hx =>
    intro acc
    rw [lpScan265.eq_def, lpTypes265.eq_def, dif_neg hx, dif_neg hx]
    simp

theorem abTypes265_step_nn (data : List ℕ) (pos : ℕ) (hP : pos < data.length - 5)
    (h4 : findSub data startCode4 pos = none)
    (h3 : findSub data startCode3 pos = none) :
    abTypes265 data pos = [] := by
  rw [abTypes265.eq_def, dif_pos hP]
  split
  · rfl
  · rename_i j4x heq4 heq3
    rw [h4] at heq4
    exact absurd heq4 (by simp)
  · rename_i j3x heq4 heq3
    rw [h3] at heq3
    exact absurd heq3 (by simp)
  · rename_i j4x j3x heq4 heq3
    rw [h4] at heq4
    exact absurd heq4 (by simp)

theorem abTypes265_step_sn (data : List ℕ) (pos j4 : ℕ) (hP : pos < data.length - 5)
    (h4 : findSub data startCode4 pos = some j4)
    (h3 : findSub data startCode3 pos = none) :
    abTypes265 data pos =
      if j4 + 6 ≤ data.length then
        nalType265At data (j4 + 4) :: abTypes265 data (j4 + 4)
      else abTypes265 data (j4 + 4) := by
  rw [abTypes265.eq_def, dif_pos hP]
  split
  · rename_i heq4 heq3
    rw [h4] at heq4
    exact absurd heq4 (by simp)
  · rename_i j4x heq4 heq3
    rw [h4] at heq4
    injection heq4 with heq4
    subst heq4
    rfl
  · rename_i j3x heq4 heq3
    rw [h4] at heq4
    exact absurd heq4 (by simp)
  · rename_i j4x j3x heq4 heq3
    rw [h3] at heq3
    exact absurd heq3 (by simp)

theorem abTypes265_step_ns (data : List ℕ) (pos j3 : ℕ) (hP : pos < data.length - 5)
    (h4 : findSub data startCode4 pos = none)
    (h3 : findSub data startCode3 pos = some j3) :
    abTypes265 data pos =
      if j3 + 5 ≤ data.length then
        nalType265At data (j3 + 3) :: abTypes265 data (j3 + 3)
      else abTypes265 data (j3 + 3) := by
  rw [abTypes265.eq_def, dif_pos hP]
  split
  · rename_i heq4 heq3
    rw [h3] at heq3
    exact absurd heq3 (by simp)
  · rename_i j4x heq4 heq3
    rw [h4] at heq4
    exact absurd heq4 (by simp)
  · rename_i j3x heq4 heq3
    rw [h3] at heq3
    injection heq3 with heq3
    subst heq3
    rfl
  · rename_i j4x j3x heq4 heq3
    rw [h4] at heq4
    exact absurd heq4 (by simp)

theorem abTypes265_step_ss (data : List ℕ) (pos j4 j3 : ℕ) (hP : pos < data.length - 5)
    (h4 : findSub data startCode4 pos = some j4)
    (h3 : findSub data startCode3 pos = some j3) :
    abTypes265 data pos =
      if j4 ≤ j3 then
        if j4 + 6 ≤ data.length then
          nalType265At data (j4 + 4) :: abTypes265 data (j4 + 4)
        else abTypes265 data (j4 + 4)
      else
        if j3 + 5 ≤ data.length then
          nalType265At data (j3 + 3) :: abTypes265 data (j3 + 3)
        else abTypes265 data (j3 + 3) := by
  rw [abTypes265.eq_def, dif_pos hP]
  split
  · rename_i heq4 heq3
    rw [h4] at heq4
    exact absurd heq4 (by simp)
  · rename_i j4x heq4 heq3
    rw [h3] at heq3
    exact absurd heq3 (by simp)
  · rename_i j3x heq4 heq3
    rw [h4] at heq4
    exact absurd heq4 (by simp)
  · rename_i j4x j3x heq4 heq3
    rw [h4] at heq4
    rw [h3] at heq3
    injection heq4 with heq4
    injection heq3 with heq3
    subst heq4
    subst heq3
    rfl

theorem abTypes265_step_end (data : List ℕ) (pos : ℕ) (hP : ¬ pos < data.length - 5) :
    abTypes265 data pos = [] := by
  rw [abTypes265.eq_def, dif_neg hP]

theorem abScan265_step_nn (data : List ℕ) (pos : ℕ) (acc : List ℕ)
    (hP : pos < data.length - 5)
    (h4 : findSub data startCode4 pos = none)
    (h3 : findSub data startCode3 pos = none) :
    abScan265 data pos acc = Sum.inr acc := by
  rw [abScan265.eq_def, dif_pos hP]
  split
  · rfl
  · rename_i j4x heq4 heq3
    rw [h4] at heq4
    exact absurd heq4 (by simp)
  · rename_i j3x heq4 heq3
    rw [h3] at heq3
    exact absurd heq3 (by simp)
  · rename_i j4x j3x heq4 heq3
    rw [h4] at heq4
    exact absurd heq4 (by simp)

theorem abScan265_step_sn (data : List ℕ) (pos j4 : ℕ) (acc : List ℕ)
    (hP : pos < data.length - 5)
    (h4 : findSub data startCode4 pos = some j4)
    (h3 : findSub data startCode3 pos = none) :
    abScan265 data pos acc =
      (if j4 + 6 ≤ data.length then
        if 16 ≤ nalType265At data (j4 + 4) ∧ nalType265At data (j4 + 4) ≤ 20 then
          Sum.inl (nalType265At data (j4 + 4))
        else abScan265 data (j4 + 4) (acc ++ [nalType265At data (j4 + 4)])
      else abScan265 data (j4 + 4) acc) := by
  rw [abScan265.eq_def, dif_pos hP]
  split
  · rename_i heq4 heq3
    rw [h4] at heq4
    exact absurd heq4 (by simp)
  · rename_i j4x heq4 heq3
    rw [h4] at heq4
    injection heq4 with heq4
    subst heq4
    rfl
  · rename_i j3x heq4 heq3
    rw [h4] at heq4
    exact absurd heq4 (by simp)
  · rename_i j4x j3x heq4 heq3
    rw [h3] at heq3
    exact absurd heq3 (by simp)

theorem abScan265_step_ns (data : List ℕ) (pos j3 : ℕ) (acc : List ℕ)
    (hP : pos < data.length - 5)
    (h4 : findSub data startCode4 pos = none)
    (h3 : findSub data startCode3 pos = some j3) :
    abScan265 data pos acc =
      (if j3 + 5 ≤ data.length then
        if 16 ≤ nalType265At data (j3 + 3) ∧ nalType265At data (j3 + 3) ≤ 20 then
          Sum.inl (nalType265At data (j3 + 3))
        else abScan265 data (j3 + 3) (acc ++ [nalType265At data (j3 + 3)])
      else abScan265 data (j3 + 3) acc) := by
  rw [abScan265.eq_def, dif_pos hP]
  split
  · rename_i heq4 heq3
    rw [h3] at heq3
    exact absurd heq3 (by simp)
  · rename_i j4x heq4 heq3
    rw [h4] at heq4
    exact absurd heq4 (by simp)
  · rename_i j3x heq4 heq3
    rw [h3] at heq3
    injection heq3 with heq3
    subst heq3
    rfl
  · rename_i j4x j3x heq4 heq3
    rw [h4] at heq4
    exact absurd heq4 (by simp)

theorem abScan265_step_ss (data : List ℕ) (pos j4 j3 : ℕ) (acc : List ℕ)
    (hP : pos < data.length - 5)
    (h4 : findSub data startCode4 pos = some j4)
    (h3 : findSub data startCode3 pos = some j3) :
    abScan265 data pos acc =
      (if j4 ≤ j3 then
        if j4 + 6 ≤ data.length then
          if 16 ≤ nalType265At data (j4 + 4) ∧ nalType265At data (j4 + 4) ≤ 20 then
            Sum.inl (nalType265At data (j4 + 4))
          else abScan265 data (j4 + 4) (acc ++ [nalType265At data (j4 + 4)])
        else abScan265 data (j4 + 4) acc
      else
        if j3 + 5 ≤ data.length then
          if 16 ≤ nalType265At data (j3 + 3) ∧ nalType265At data (j3 + 3) ≤ 20 then
            Sum.inl (nalType265At data (j3 + 3))
          else abScan265 data (j3 + 3) (acc ++ [nalType265At data (j3 + 3)])
        else abScan265 data (j3 + 3) acc) := by
  rw [abScan265.eq_def, dif_pos hP]
  split
  · rename_i heq4 heq3
    rw [h4] at heq4
    exact absurd heq4 (by simp)
  · rename_i j4x heq4 heq3
    rw [h3] at heq3
    exact absurd heq3 (by simp)
  · rename_i j3x heq4 heq3
    rw [h4] at heq4
    exact absurd heq4 (by simp)
  · rename_i j4x j3x heq4 heq3
    rw [h4] at heq4
    rw [h3] at heq3
    injection heq4 with heq4
    injection heq3 with heq3
    subst heq4
    subst heq3
    rfl

theorem abScan265_step_end (data : List ℕ) (pos : ℕ) (acc : List ℕ)
    (hP : ¬ pos < data.length - 5) :
    abScan265 data pos acc = Sum.inr acc := by
  rw [abScan265.eq_def, dif_neg hP]

theorem abScan265_eq (data : List ℕ) : ∀ (pos : ℕ) (acc : List ℕ),
    abScan265 data pos acc =
      match (abTypes265 data pos).find? (fun t => decide (16 ≤ t) && decide (t ≤ 20)) with
      | some t => Sum.inl t
      | none => Sum.inr (acc ++ abTypes265 data pos) := by
  intro pos
  induction pos using abTypes265.induct data with
  | case1 x hx h4 h3 =>
    intro acc
    rw [abScan265_step_nn data x acc hx h4 h3, abTypes265_step_nn data x hx h4 h3]
    simp
  | case2 x hx j4 h4 h3 hlen ih =>
    intro acc
    rw [abScan265_step_sn data x j4 acc hx h4 h3, abTypes265_step_sn data x j4 hx h4 h3,
      if_pos hlen, if_pos hlen]
    by_cases hbl : 16 ≤ nalType265At data (j4 + 4) ∧ nalType265At data (j4 + 4) ≤ 20
    · rw [if_pos hbl, List.find?_cons_of_pos _ (by simp [hbl.1, hbl.2])]
    · rw [if_neg hbl, List.find?_cons_of_neg _ (by simpa using hbl), ih]
      cases hf : (abTypes265 data (j4 + 4)).find?
          (fun t => decide (16 ≤ t) && decide (t ≤ 20)) with
      | some t => rfl
      | none => simp
  | case3 x hx j4 h4 h3 hlen ih =>
    intro acc
    rw [abScan265_step_sn data x j4 acc hx h4 h3, abTypes265_step_sn data x j4 hx h4 h3,
      if_neg hlen, if_neg hlen]
    exact ih acc
  | case4 x hx j3 h4 h3 hlen ih =>
    intro acc
    rw [abScan265_step_ns data x j3 acc hx h4 h3, abTypes265_step_ns data x j3 hx h4 h3,
      if_pos hlen, if_pos hlen]
    by_cases hbl : 16 ≤ nalType265At data (j3 + 3) ∧ nalType265At data (j3 + 3) ≤ 20
    · rw [if_pos hbl, List.find?_cons_of_pos _ (by simp [hbl.1, hbl.2])]
    · rw [if_neg hbl, List.find?_cons_of_neg _ (by simpa using hbl), ih]
      cases hf : (abTypes265 data (j3 + 3)).find?
          (fun t => decide (16 ≤ t) && decide (t ≤ 20)) with
      | some t => rfl
      | none => simp
  | case5 x hx j3 h4 h3 hlen ih =>
    intro acc
    rw [abScan265_step_ns data x j3 acc hx h4 h3, abTypes265_step_ns data x j3 hx h4 h3,
      if_neg hlen, if_neg hlen]
    exact ih acc
  | case6 x hx j4 j3 h4 h3 hj hlen ih =>
    intro acc
    rw [abScan265_step_ss data x j4 j3 acc hx h4 h3, abTypes265_step_ss data x j4 j3 hx h4 h3,
      if_pos hj, if_pos hj, if_pos hlen, if_pos hlen]
    by_cases hbl : 16 ≤ nalType265At data (j4 + 4) ∧ nalType265At data (j4 + 4) ≤ 20
    · rw [if_pos hbl, List.find?_cons_of_pos _ (by simp [hbl.1, hbl.2])]
    · rw [if_neg hbl, List.find?_cons_of_neg _ (by simpa using hbl), ih]
      cases hf : (abTypes265 data (j4 + 4)).find?
          (fun t => decide (16 ≤ t) && decide (t ≤ 20)) with
      | some t => rfl
      | none => simp
  | case7 x hx j4 j3 h4 h3 hj hlen ih =>
    intro acc
    rw [abScan265_step_ss data x j4 j3 acc hx h4 h3, abTypes265_step_ss data x j4 j3 hx h4 h3,
      if_pos hj, if_pos hj, if_neg hlen, if_neg hlen]
    exact ih acc
  | case8 x hx j4 j3 h4 h3 hj hlen ih =>
    intro acc
    rw [abScan265_step_ss data x j4 j3 acc hx h4 h3, abTypes265_step_ss data x j4 j3 hx h4 h3,
      if_neg hj, if_neg hj, if_pos hlen, if_pos hlen]
    by_cases hbl : 16 ≤ nalType265At data (j3 + 3) ∧ nalType265At data (j3 + 3) ≤ 20
    · rw [if_pos hbl, List.find?_cons_of_pos _ (by simp [hbl.1, hbl.2])]
    · rw [if_neg hbl, List.find?_cons_of_neg _ (by simpa using hbl), ih]
      cases hf : (abTypes265 data (j3 + 3)).find?
          (fun t => decide (16 ≤ t) && decide (t ≤ 20)) with
      | some t => rfl
      | none => simp
  | case9 x hx j4 j3 h4 h3 hj hlen ih =>
    intro acc
    rw [abScan265_step_ss data x j4 j3 acc hx h4 h3, abTypes265_step_ss data x j4 j3 hx h4 h3,
      if_neg hj, if_neg hj, if_neg hlen, if_neg hlen]
    exact ih acc
  | case10 x hx =>
    intro acc
    rw [abScan265_step_end data x acc hx, abTypes265_step_end data x hx]
    simp

theorem find?_beq_21 (ts : List ℕ) :
    ts.find? (fun t => t == 21) = if ts.contains 21 then some 21 else none := by
  induction ts with
  | nil => simp
  | cons a rest ih =>
    by_cases ha : a = 21
    · subst ha
      rw [List.find?_cons_of_pos _ (by simp)]
      simp
    · rw [List.find?_cons_of_neg _ (by simp [ha]), ih]
      have h21 : ¬ (21 = a) := fun h => ha h.symm
      simp [List.contains_cons, h21]

theorem pickTypes265_eq_select (ts : List ℕ)
    (h : ts.find? (fun t => decide (16 ≤ t) && decide (t ≤ 20)) = none) :
    pickTypes265 ts = selectH265Spec ts := by
  unfold selectH265Spec pickTypes265
  rw [h, find?_beq_21]
  by_cases hc : ts.contains 21
  · rw [if_pos hc, if_pos hc]
  · rw [if_neg hc, if_neg hc]

theorem lpTypes265_ne_nil (data : List ℕ) (hc : lpCondition data) :
    lpTypes265 data 0 ≠ [] := by
  obtain ⟨h1, h2⟩ := hc
  have hlen : 9 ≤ data.length := by omega
  rw [lpTypes265.eq_def, dif_pos (by omega : (0 : ℕ) < data.length - 4)]
  dsimp only
  rw [dif_neg (by omega : ¬ (be32 data 0 < 2 ∨ be32 data 0 > data.length - 0 - 4))]
  rw [if_pos (by omega : 0 + 5 < data.length)]
  simp

/-- C6: for every packet payload, get_h265_nal_unit_type returns exactly the
spec's priority selection over the sequence of NAL types it parses
(length-prefixed records when the leading 32-bit length is valid, otherwise
the Annex-B start-code walk): the first type in 16..20 (BLA/IDR) if any,
else 21 if any CRA, else the first type in 0..15, else the first type
encountered. -/
theorem h265_priority_selection (data : List ℕ) :
    get_h265_nal_unit_type data = selectH265Spec (h265ParsedTypes data) := by
  unfold get_h265_nal_unit_type h265ParsedTypes
  by_cases hlen : data.length < 6
  · rw [if_pos hlen, if_pos hlen]
    simp [selectH265Spec]
  · rw [if_neg hlen, if_neg hlen]
    dsimp only
    by_cases hlp : lpCondition data
    · rw [if_pos hlp, if_pos hlp]
      rw [lpScan265_eq data 0 []]
      cases hfind : (lpTypes265 data 0).find?
          (fun t => decide (16 ≤ t) && decide (t ≤ 20)) with
      | some t =>
        dsimp only
        simp only [selectH265Spec, hfind]
      | none =>
        have hne := lpTypes265_ne_nil data hlp
        dsimp only
        simp only [List.nil_append]
        rw [show (lpTypes265 data 0).isEmpty = false from by
          simpa [List.isEmpty_iff] using hne]
        show pickTypes265 (lpTypes265 data 0) = selectH265Spec (lpTypes265 data 0)
        exact pickTypes265_eq_select _ hfind
    · rw [if_neg hlp, if_neg hlp]
      rw [abScan265_eq data 0 []]
      cases hfind : (abTypes265 data 0).find?
          (fun t => decide (16 ≤ t) && decide (t ≤ 20)) with
      | some t =>
        dsimp only
        simp only [selectH265Spec, hfind]
      | none =>
        dsimp only
        simp only [List.nil_append]
        exact pickTypes265_eq_select _ hfind

theorem abScan264_step_nn (data : List ℕ) (pos : ℕ) (acc : List ℕ)
    (hP : pos < data.length - 4)
    (h4 : findSub data startCode4 pos = none)
    (h3 : findSub data startCode3 pos = none) :
    abScan264 data pos acc = Sum.inr acc := by
  rw [abScan264.eq_def, dif_pos hP]
  split
  · rfl
  · rename_i j4x heq4 heq3
    rw [h4] at heq4
    exact absurd heq4 (by simp)
  · rename_i j3x heq4 heq3
    rw [h3] at heq3
    exact absurd heq3 (by simp)
  · rename_i j4x j3x heq4 heq3
    rw [h4] at heq4
    exact absurd heq4 (by simp)

theorem abScan264_step_end (data : List ℕ) (pos : ℕ) (acc : List ℕ)
    (hP : ¬ pos < data.length - 4) :
    abScan264 data pos acc = Sum.inr acc := by
  rw [abScan264.eq_def, dif_neg hP]

/-- C9: both NAL classifiers are total functions into Option (they are plain
terminating definitions), and they return none on every input shorter than
5 bytes (H.264) or 6 bytes (H.265), as well as on any input in which the
length-prefixed interpretation is not triggered and no Annex-B start code
(4-byte or 3-byte) occurs anywhere. -/
theorem nal_classifiers_none_cases :
    (∀ data : List ℕ, data.length < 5 → get_h264_nal_unit_type data = none) ∧
    (∀ data : List ℕ, data.length < 6 → get_h265_nal_unit_type data = none) ∧
    (∀ data : List ℕ, ¬ lpCondition data → findSub data startCode4 0 = none →
      findSub data startCode3 0 = none → get_h264_nal_unit_type data = none) ∧
    (∀ data : List ℕ, ¬ lpCondition data → findSub data startCode4 0 = none →
      findSub data startCode3 0 = none → get_h265_nal_unit_type data = none) := by
  refine ⟨?_, ?_, ?_, ?_⟩
  · intro data h
    unfold get_h264_nal_unit_type
    rw [if_pos h]
  · intro data h
    unfold get_h265_nal_unit_type
    rw [if_pos h]
  · intro data hlp h4 h3
    unfold get_h264_nal_unit_type
    by_cases hl : data.length < 5
    · rw [if_pos hl]
    · rw [if_neg hl]
      dsimp only
      rw [if_neg hlp]
      have hab : abScan264 data 0 [] = Sum.inr [] := by
        by_cases h0 : 0 < data.length - 4
        · exact abScan264_step_nn data 0 [] h0 h4 h3
        · exact abScan264_step_end data 0 [] h0
      rw [hab]
      rfl
  · intro data hlp h4 h3
    unfold get_h265_nal_unit_type
    by_cases hl : data.length < 6
    · rw [if_pos hl]
    · rw [if_neg hl]
      dsimp only
      rw [if_neg hlp]
      have hab : abScan265 data 0 [] = Sum.inr [] := by
        by_cases h0 : 0 < data.length - 5
        · exact abScan265_step_nn data 0 [] h0 h4 h3
        · exact abScan265_step_end data 0 [] h0
      rw [hab]
      rfl

/-- C9 (witness): the none cases at concrete inputs: short payloads and a
10-byte payload of 0xFF bytes with no valid length prefix and no start
codes. -/
theorem nal_classifiers_none_cases_witness :
    get_h264_nal_unit_type [0, 0, 0] = none ∧
    get_h265_nal_unit_type [0, 0, 0, 0] = none ∧
    get_h264_nal_unit_type (List.replicate 10 255) = none ∧
    get_h265_nal_unit_type (List.replicate 10 255) = none := by
  refine ⟨nal_classifiers_none_cases.1 _ (by norm_num),
    nal_classifiers_none_cases.2.1 _ (by norm_num),
    nal_classifiers_none_cases.2.2.1 _ (by decide) (by decide) (by decide),
    nal_classifiers_none_cases.2.2.2 _ (by decide) (by decide) (by decide)⟩
